import Mathlib

/-!
# Verification of the `powietrze` import pipeline

Shallow embedding of the core import pipeline of the `powietrze` repository:
the xlsx record parser (`src/powietrze/parser.py`), the entity resolver and
bulk loader (`src/powietrze/importer.py`, `src/powietrze/db.py`), and the
per-file import state machine (`src/powietrze/importer.py`,
`src/powietrze/cli.py`).

Modelling conventions:
* a pandas cell is `Cell` (missing / string / timestamp / number);
* datetimes are encoded as rationals on an abstract timeline;
* Python `float` values are modelled as rationals;
* SQL tables are lists of rows; surrogate ids are list indices;
* exceptions are modelled with `Except` / explicit failure parameters.
-/

namespace Powietrze

/-- A spreadsheet cell as pandas `read_excel(header=None)` delivers it:
missing (`NaN`), a string, a timestamp (`pd.Timestamp`, encoded on an
abstract rational timeline), or a number. -/
inductive Cell where
  | empty : Cell
  | str : String → Cell
  | ts : ℚ → Cell
  | num : ℚ → Cell
deriving DecidableEq

/-- The raw grid of one sheet (a pandas `DataFrame` read with `header=None`). -/
abbrev Grid := List (List Cell)

/-- `df.iloc[r, c]`: cell access; a missing cell reads as `NaN`.
(pandas raises an `IndexError` for out-of-range positions; claims about the
format detectors therefore carry an explicit bound on the grid height.) -/
def cellAt (df : Grid) (r c : Nat) : Cell := (df.getD r []).getD c Cell.empty

/-- Numeric value of a list of decimal digit characters. -/
def digitsVal (cs : List Char) : Nat := cs.foldl (fun a c => a * 10 + (c.toNat - 48)) 0

/-- All characters are decimal digits. -/
def allDigits (cs : List Char) : Bool := cs.all Char.isDigit

/-- Injective encoding of a calendar timestamp on the abstract timeline. -/
def encodeDT (y mo d h mi s : Nat) : ℚ :=
  (((((((y * 13 + mo) * 32 + d) * 24 + h) * 60 + mi) * 60 + s : Nat)) : ℚ)

/-- Time-of-day part `HH:MM` or `HH:MM:SS` of an ISO string. -/
def parseTimePart : List Char → Option (Nat × Nat × Nat)
  | [h1, h2, ':', n1, n2] =>
    if allDigits [h1, h2, n1, n2] then
      let h := digitsVal [h1, h2]
      let mi := digitsVal [n1, n2]
      if h ≤ 23 ∧ mi ≤ 59 then some (h, mi, 0) else none
    else none
  | [h1, h2, ':', n1, n2, ':', s1, s2] =>
    if allDigits [h1, h2, n1, n2, s1, s2] then
      let h := digitsVal [h1, h2]
      let mi := digitsVal [n1, n2]
      let se := digitsVal [s1, s2]
      if h ≤ 23 ∧ mi ≤ 59 ∧ se ≤ 59 then some (h, mi, se) else none
    else none
  | _ => none

/-- Models the Python stdlib `datetime.fromisoformat`, restricted to the
forms `YYYY-MM-DD`, `YYYY-MM-DD HH:MM`, `YYYY-MM-DD HH:MM:SS` with separator
`T` or space (the forms air-quality sheets use); the result is the encoded
timestamp, `none` models the `ValueError`. -/
def fromisoformat (s : String) : Option ℚ :=
  match s.toList with
  | y1 :: y2 :: y3 :: y4 :: '-' :: m1 :: m2 :: '-' :: d1 :: d2 :: rest =>
    if allDigits [y1, y2, y3, y4, m1, m2, d1, d2] then
      let y := digitsVal [y1, y2, y3, y4]
      let mo := digitsVal [m1, m2]
      let d := digitsVal [d1, d2]
      if 1 ≤ mo ∧ mo ≤ 12 ∧ 1 ≤ d ∧ d ≤ 31 then
        match rest with
        | [] => some (encodeDT y mo d 0 0 0)
        | sep :: timePart =>
          if sep = 'T' ∨ sep = ' ' then
            match parseTimePart timePart with
            | some hms => some (encodeDT y mo d hms.1 hms.2.1 hms.2.2)
            | none => none
          else none
      else none
    else none
  | _ => none

/-- Surrounding whitespace stripped, as Python `float` does. -/
def stripWS (cs : List Char) : List Char :=
  ((cs.dropWhile Char.isWhitespace).reverse.dropWhile Char.isWhitespace).reverse

/-- Models Python `float(s)`, restricted to plain decimal literals:
surrounding whitespace stripped, optional single sign, digits with at most
one decimal point (`"12."`, `".5"` accepted, `"."` and `""` rejected).
Exponent notation, `inf`/`nan` and digit underscores are outside the model. -/
def pyFloat (s : String) : Option ℚ :=
  let cs := stripWS s.toList
  let signed : ℚ × List Char :=
    match cs with
    | '-' :: t => (-1, t)
    | '+' :: t => (1, t)
    | t => (1, t)
  match signed.2.span (fun c => c ≠ '.') with
  | (ip, []) =>
    if ip ≠ [] ∧ allDigits ip then some (signed.1 * (digitsVal ip : ℚ)) else none
  | (ip, _dot :: fp) =>
    if fp.all (fun c => c ≠ '.') ∧ (ip ≠ [] ∨ fp ≠ []) ∧ allDigits ip ∧ allDigits fp then
      some (signed.1 * ((digitsVal ip : ℚ) + (digitsVal fp : ℚ) / (10 : ℚ) ^ fp.length))
    else none

/-- Models Python `str()` on a (non-missing) cell value. `str` cells render
as themselves; `str(float('nan')) = "nan"`; timestamp and numeric values
render abstractly as digits and punctuation (their concrete Python rendering
consists of digits, `-`, `:`, space and `.` only). -/
def pyStr : Cell → String
  | Cell.empty => "nan"
  | Cell.str s => s
  | Cell.ts q => toString q.num ++ "-" ++ toString q.den
  | Cell.num q => toString q.num ++ "/" ++ toString q.den

/-- Python's substring test `pat in s`. -/
def strContains (s pat : String) : Bool :=
  (List.range (s.toList.length + 1)).any (fun i => pat.toList.isPrefixOf (s.toList.drop i))

/-- `str(df.iloc[5, 0]) if not pd.isna(df.iloc[5, 0]) else ""`: the header
cell of row 5 that `detect_format` inspects. -/
def headerCellStr (df : Grid) : String :=
  match cellAt df 5 0 with
  | Cell.empty => ""
  | c => pyStr c

/-- `detect_format` (parser.py): inspect cell (5, 0); a `"Data"` marker means
the two-column date-range layout, with data starting at column 2, otherwise
at column 1. -/
def detect_format (df : Grid) : Nat :=
  if strContains (headerCellStr df) "Data" then 2 else 1

/-- `val.replace(" ", "T")`: single-character replacement, applied per char. -/
def spaceToT (s : String) : String :=
  String.mk (s.toList.map (fun c => if c = ' ' then 'T' else c))

/-- `val.split(".")[0]`: the prefix before the first period. -/
def stripFraction (s : String) : String :=
  String.mk (s.toList.takeWhile (fun c => c ≠ '.'))

/-- The per-cell test of `detect_data_start_row`: a timestamp value, or a
string whose normalised form parses as an ISO timestamp.  Missing and
numeric cells do not qualify. -/
def looksLikeTS : Cell → Bool
  | Cell.empty => false
  | Cell.ts _ => true
  | Cell.str s => (fromisoformat (stripFraction (spaceToT s))).isSome
  | Cell.num _ => false

/-- `detect_data_start_row` (parser.py): first index in
`range(5, min(15, len(df)))` whose column-0 cell looks like a timestamp;
default row 6 when none does. -/
def detect_data_start_row (df : Grid) : Nat :=
  match (List.range' 5 (min 15 df.length - 5)).find? (fun idx => looksLikeTS (cellAt df idx 0)) with
  | some idx => idx
  | none => 6

/-- `FileMetadata` (parser.py). -/
structure FileMetadata where
  indicator_name : String
  averaging_time : String
  station_codes : List String
  units : List String
  data_start_col : Nat
  data_start_row : Nat
deriving DecidableEq

/-- `df.iloc[r, c:]`: one header row from column `c` on. -/
def rowFrom (df : Grid) (r c : Nat) : List Cell := (df.getD r []).drop c

/-- `parse_xlsx_metadata` (parser.py). -/
def parse_xlsx_metadata (df : Grid) : FileMetadata :=
  let c := detect_format df
  { indicator_name := pyStr (cellAt df 2 c)
    averaging_time := pyStr (cellAt df 3 c)
    station_codes := (rowFrom df 1 c).map pyStr
    units := (rowFrom df 4 c).map pyStr
    data_start_col := c
    data_start_row := detect_data_start_row df }

/-- `MeasurementRecord` (parser.py). -/
structure MeasurementRecord where
  station_code : String
  indicator_name : String
  unit : String
  averaging_time : String
  measured_at : ℚ
  value : Option ℚ
  source_file : String
deriving DecidableEq

/-- Column-0 timestamp conversion in the data-row loop of `parse_xlsx_file`:
`NaN` and unparseable values yield `none` (the row is skipped); a string is
given to `datetime.fromisoformat` untouched; a numeric cell goes through
`pd.to_datetime` (timestamp bounds are not modelled). -/
def timestampOfCell : Cell → Option ℚ
  | Cell.empty => none
  | Cell.str s => fromisoformat s
  | Cell.ts t => some t
  | Cell.num q => some q

/-- Data-cell value conversion in `parse_xlsx_file`: `NaN` yields `none`; a
string has commas normalised to periods and is given to `float` (failure
yields `none`); `float` of a timestamp raises `TypeError`, also caught. -/
def parseValue : Cell → Option ℚ
  | Cell.empty => none
  | Cell.str s => pyFloat (String.mk (s.toList.map (fun c => if c = ',' then '.' else c)))
  | Cell.ts _ => none
  | Cell.num q => some q

/-- One data row of `parse_xlsx_file`: skip the row when column 0 has no
usable timestamp, otherwise emit one record per data column (the columns
enumerated by `metadata.station_codes`).  `metadata.units` has the same
length as `station_codes` for a rectangular grid, so the `getD` default is
never reached on real input. -/
def parseDataRow (meta : FileMetadata) (src : String) (row : List Cell) : List MeasurementRecord :=
  match timestampOfCell (row.getD 0 Cell.empty) with
  | none => []
  | some t =>
    meta.station_codes.enum.map (fun p =>
      { station_code := p.2
        indicator_name := meta.indicator_name
        unit := meta.units.getD p.1 ""
        averaging_time := meta.averaging_time
        measured_at := t
        value := parseValue (row.getD (meta.data_start_col + p.1) Cell.empty)
        source_file := src })

/-- `parse_xlsx_file` (parser.py): metadata from the header block, then the
data rows from the detected start row on. -/
def parse_xlsx_file (df : Grid) (src : String) : List MeasurementRecord :=
  let meta := parse_xlsx_metadata df
  (df.drop meta.data_start_row).flatMap (parseDataRow meta src)

/-! ## Durable store (db.py) and bulk loader (importer.py) -/

/-- A row of the `measurements` table (equally: of the `measurements_staging`
temp table, whose columns are identical).  `value` is the `NUMERIC(10, 2)`
column, held exactly as integer hundredths; surrogate ids are list indices
into the entity tables. -/
structure MRow where
  station_id : Nat
  indicator_id : Nat
  import_file_id : Nat
  averaging_time : String
  measured_at : ℚ
  value : ℤ
deriving DecidableEq

/-- The natural key of the `uq_measurement` unique constraint. -/
def mkey (r : MRow) : Nat × Nat × String × ℚ :=
  (r.station_id, r.indicator_id, r.averaging_time, r.measured_at)

/-- The `DO UPDATE SET value = EXCLUDED.value, import_file_id =
EXCLUDED.import_file_id` action of the merge statement. -/
def overwrite (m s : MRow) : MRow :=
  { m with value := s.value, import_file_id := s.import_file_id }

/-- The row a `SELECT ... WHERE key = k` would return (first match). -/
def lookupRow (M : List MRow) (k : Nat × Nat × String × ℚ) : Option MRow :=
  M.find? (fun m => mkey m == k)

/-- Upsert of one (key-distinct) staged row into `measurements`:
`ON CONFLICT ON CONSTRAINT uq_measurement DO UPDATE` overwrites the
conflicting row's `value` and `import_file_id` in place; otherwise the row
is inserted.  (Since `overwrite m s = s` when the keys agree, the update
writes exactly the staged column values.) -/
def upsertRow (M : List MRow) (s : MRow) : List MRow :=
  if M.any (fun m => mkey m == mkey s) then
    M.map (fun m => if mkey m == mkey s then overwrite m s else m)
  else M ++ [s]

/-- Keep the candidate with the strictly larger `import_file_id`; on ties the
earlier row is kept (PostgreSQL leaves the tie order unspecified). -/
def bestRow (s t : MRow) : MRow := if s.import_file_id < t.import_file_id then t else s

/-- The row `SELECT DISTINCT ON (key) ... ORDER BY key, import_file_id DESC`
keeps for key `k`: among the staged rows with that key, one with the
maximal `import_file_id`. -/
def chooseFor (staged : List MRow) (k : Nat × Nat × String × ℚ) : Option MRow :=
  match staged.filter (fun s => mkey s == k) with
  | [] => none
  | s :: rest => some (rest.foldl bestRow s)

/-- The deduplicated output of the `DISTINCT ON` subquery: one row per
distinct staged key.  (A SQL result set is unordered; the model lists keys
in first-occurrence order.) -/
def dedupStaging (staged : List MRow) : List MRow :=
  ((staged.map mkey).dedup).filterMap (chooseFor staged)

/-- `copy_measurements_to_db` (importer.py): the `INSERT ... SELECT DISTINCT
ON ... ON CONFLICT ... DO UPDATE` merge of a staged batch into
`measurements`. -/
def copy_measurements_to_db (M : List MRow) (staged : List MRow) : List MRow :=
  (dedupStaging staged).foldl upsertRow M

/-- The entity tables: `stations(id, code)` and
`indicators(id, name, unit)`, ids being list indices. -/
structure DBState where
  stations : List String
  indicators : List (String × String)
deriving DecidableEq

/-- `get_or_create_station` (db.py): first row with the code, else insert. -/
def get_or_create_station (db : DBState) (code : String) : Nat × DBState :=
  match db.stations.findIdx? (fun c => c == code) with
  | some i => (i, db)
  | none => (db.stations.length, { db with stations := db.stations ++ [code] })

/-- `get_or_create_indicator` (db.py): first row with (name, unit), else
insert. -/
def get_or_create_indicator (db : DBState) (name unit : String) : Nat × DBState :=
  match db.indicators.findIdx? (fun p => p == (name, unit)) with
  | some i => (i, db)
  | none => (db.indicators.length, { db with indicators := db.indicators ++ [(name, unit)] })

/-- Lookup in the per-call in-memory cache (a Python dict, modelled as an
association list in insertion order). -/
def cacheLookup {α : Type} [BEq α] (c : List (α × Nat)) (k : α) : Option Nat :=
  (c.find? (fun p => p.1 == k)).map (fun p => p.2)

/-- Station resolution step of `prepare_measurements_data`: serve from the
cache, else find-or-create and cache the id. -/
def resolveStation (db : DBState) (sc : List (String × Nat)) (code : String) :
    Nat × DBState × List (String × Nat) :=
  match cacheLookup sc code with
  | some i => (i, db, sc)
  | none =>
    let r := get_or_create_station db code
    (r.1, r.2, sc ++ [(code, r.1)])

/-- Indicator resolution step of `prepare_measurements_data`. -/
def resolveIndicator (db : DBState) (ic : List ((String × String) × Nat))
    (name unit : String) : Nat × DBState × List ((String × String) × Nat) :=
  match cacheLookup ic (name, unit) with
  | some i => (i, db, ic)
  | none =>
    let r := get_or_create_indicator db name unit
    (r.1, r.2, ic ++ [((name, unit), r.1)])

/-- `a / b` (`b > 0`) rounded to the nearest integer, ties to even. -/
def roundHalfEvenDiv (a : ℤ) (b : ℕ) : ℤ :=
  let f := a.fdiv b
  let r := a - f * b
  if 2 * r < b then f
  else if (b : ℤ) < 2 * r then f + 1
  else if f % 2 = 0 then f else f + 1

/-- Models `f"{value:.2f}"`, the two-decimal serialization written to the
`COPY` buffer and stored in the `NUMERIC(10, 2)` column: the value in
hundredths, rounded half-to-even as Python `format` does. -/
def fmtTwoDec (q : ℚ) : ℤ := roundHalfEvenDiv (100 * q.num) q.den

/-- Result of `prepare_measurements_data`: the staged CSV rows, the
(imported, skipped) counts, and the states threaded through resolution. -/
structure PrepResult where
  rows : List MRow
  imported : Nat
  skipped : Nat
  db : DBState
  scache : List (String × Nat)
  icache : List ((String × String) × Nat)
deriving DecidableEq

/-- The record loop of `prepare_measurements_data`: value-less records are
counted as skipped and contribute nothing; the rest are resolved (through
the caches) and serialized. -/
def prepareGo (db : DBState) (sc : List (String × Nat))
    (ic : List ((String × String) × Nat)) (fid : Nat) :
    List MeasurementRecord → PrepResult
  | [] => ⟨[], 0, 0, db, sc, ic⟩
  | r :: rs =>
    match r.value with
    | none =>
      let p := prepareGo db sc ic fid rs
      { p with skipped := p.skipped + 1 }
    | some v =>
      let s := resolveStation db sc r.station_code
      let i := resolveIndicator s.2.1 ic r.indicator_name r.unit
      let p := prepareGo i.2.1 s.2.2 i.2.2 fid rs
      { p with
        rows := ⟨s.1, i.1, fid, r.averaging_time, r.measured_at, fmtTwoDec v⟩ :: p.rows
        imported := p.imported + 1 }

/-- `prepare_measurements_data` (importer.py): fresh caches per call. -/
def prepare_measurements_data (db : DBState) (records : List MeasurementRecord)
    (fid : Nat) : PrepResult :=
  prepareGo db [] [] fid records

/-- State threaded through `import_zip_file`'s batch loop. -/
structure RunState where
  db : DBState
  M : List MRow
  imported : Nat
  skipped : Nat
deriving DecidableEq

/-- `import_measurements_fast` (importer.py): empty batches return
immediately; otherwise prepare and, when anything was staged, merge. -/
def import_measurements_fast (fid : Nat) (st : RunState)
    (batch : List MeasurementRecord) : RunState :=
  if batch.isEmpty then st
  else
    let p := prepare_measurements_data st.db batch fid
    let M := if 0 < p.imported then copy_measurements_to_db st.M p.rows else st.M
    ⟨p.db, M, st.imported + p.imported, st.skipped + p.skipped⟩

/-- The batch loop of `import_zip_file`, one commit per batch. -/
def runBatches (fid : Nat) (st : RunState) (batches : List (List MeasurementRecord)) :
    RunState :=
  batches.foldl (import_measurements_fast fid) st

/-- Merging a sequence of already-staged batches (the durable effect of the
batch loop on the `measurements` table). -/
def mergeBatches (M : List MRow) (bs : List (List MRow)) : List MRow :=
  bs.foldl copy_measurements_to_db M

/-- `records[i : i + batch_size]` slicing of the batch loop (`batch_size` is
always positive; the source default is 50000). -/
def chunkList (n : Nat) : List MeasurementRecord → List (List MeasurementRecord)
  | [] => []
  | x :: xs =>
    if _h : n = 0 then [x :: xs]
    else (x :: xs).take n :: chunkList n ((x :: xs).drop n)
termination_by l => l.length
decreasing_by
  simp only [List.length_drop, List.length_cons]
  omega

/-- `ImportStatus` (db.py). -/
inductive ImportStatus where
  | pending : ImportStatus
  | in_progress : ImportStatus
  | completed : ImportStatus
  | failed : ImportStatus
deriving DecidableEq

/-- A row of `import_files` (db.py). -/
structure ImportFileRow where
  archive_name : String
  filename : String
  status : ImportStatus
  records_imported : Nat
  records_skipped : Nat
  error_message : Option String
  created_at : Nat
  completed_at : Option Nat
deriving DecidableEq

/-- The `uq_import_file` natural key test. -/
def fileKeyMatches (a fn : String) (f : ImportFileRow) : Bool :=
  f.archive_name == a && f.filename == fn

/-- `get_or_create_import_file` (db.py): first row with (archive, filename),
else insert a PENDING row (`created_at` defaults to now). -/
def get_or_create_import_file (files : List ImportFileRow) (a fn : String)
    (now : Nat) : Nat × List ImportFileRow :=
  match files.findIdx? (fileKeyMatches a fn) with
  | some i => (i, files)
  | none =>
    (files.length, files ++ [⟨a, fn, ImportStatus.pending, 0, 0, none, now, none⟩])

/-- `is_file_completed` (db.py). -/
def is_file_completed (files : List ImportFileRow) (a fn : String) : Bool :=
  files.any (fun f => fileKeyMatches a fn f && f.status == ImportStatus.completed)

/-- In-place update of the row at index `i` (the ORM mutates the fetched
row). -/
def updateAt {α : Type} : List α → Nat → (α → α) → List α
  | [], _, _ => []
  | x :: xs, 0, g => g x :: xs
  | x :: xs, i + 1, g => x :: updateAt xs i g

deriving instance DecidableEq for Except

/-- Everything `import_zip_file` leaves behind for one file. -/
structure FileOutcome where
  files : List ImportFileRow
  db : DBState
  M : List MRow
  result : Except String (Nat × Nat)
  files_skipped : Nat

/-- The per-file body of `import_zip_file` (importer.py): skip COMPLETED
files; otherwise claim the row IN_PROGRESS, run the batches, and finish
COMPLETED with counts and completion time — or, when an exception with
message `e` interrupts parsing or loading after `n` committed batches
(`fail = some (n, e)`), keep the committed batches (the open transaction is
rolled back), record FAILED with the message, and re-raise. -/
def processFile (files : List ImportFileRow) (db : DBState) (M : List MRow)
    (a fn : String) (records : List MeasurementRecord)
    (fail : Option (Nat × String)) (now : Nat) (batch_size : Nat) : FileOutcome :=
  if is_file_completed files a fn then ⟨files, db, M, Except.ok (0, 0), 1⟩
  else
    let g := get_or_create_import_file files a fn now
    let files2 := updateAt g.2 g.1 (fun f => { f with status := ImportStatus.in_progress })
    let batches := chunkList batch_size records
    match fail with
    | some pe =>
      let st := runBatches g.1 ⟨db, M, 0, 0⟩ (batches.take pe.1)
      let files3 := updateAt files2 g.1
        (fun f => { f with status := ImportStatus.failed, error_message := some pe.2 })
      ⟨files3, st.db, st.M, Except.error pe.2, 0⟩
    | none =>
      let st := runBatches g.1 ⟨db, M, 0, 0⟩ batches
      let files3 := updateAt files2 g.1
        (fun f => { f with
          status := ImportStatus.completed
          records_imported := st.imported
          records_skipped := st.skipped
          completed_at := some now })
      ⟨files3, st.db, st.M, Except.ok (st.imported, st.skipped), 0⟩

/-- The row predicate of `cmd_reset_failed` (cli.py):
`status IN (FAILED, IN_PROGRESS)`. -/
def resetFailedCond (f : ImportFileRow) : Bool :=
  f.status == ImportStatus.failed || f.status == ImportStatus.in_progress

/-- `cmd_reset_failed` (cli.py): one bulk `UPDATE ... SET status = PENDING`
over the FAILED and IN_PROGRESS rows, returning the matched-row count. -/
def resetFailed (files : List ImportFileRow) : List ImportFileRow × Nat :=
  (files.map (fun f => if resetFailedCond f then { f with status := ImportStatus.pending } else f),
   (files.filter resetFailedCond).length)

/-- Status of the `import_files` row with natural key (a, fn). -/
def fileStatus (files : List ImportFileRow) (a fn : String) : Option ImportStatus :=
  (files.find? (fileKeyMatches a fn)).map ImportFileRow.status

/-- Error message of the `import_files` row with natural key (a, fn). -/
def fileError (files : List ImportFileRow) (a fn : String) : Option (Option String) :=
  (files.find? (fileKeyMatches a fn)).map ImportFileRow.error_message

/-- The per-key final write of a sequence of staged batches: the `DISTINCT
ON` choice of the last batch that stages the key (used to characterise the
batch-loop fold). -/
def finalChoice (bs : List (List MRow)) (k : Nat × Nat × String × ℚ) : Option MRow :=
  bs.foldl (fun acc b =>
    match chooseFor b k with
    | some s => some s
    | none => acc) none

/-- Measurement-table states reachable by the import pipeline: the freshly
initialised empty table, extended by any sequence of batch merges. -/
inductive ReachableM : List MRow → Prop
  | init : ReachableM []
  | step (M staged : List MRow) : ReachableM M →
      ReachableM (copy_measurements_to_db M staged)

/-! ## Theorems -/

/-- C10: the administrative reset touches only the `status` field, and only
on rows whose status is FAILED or IN_PROGRESS (which become PENDING);
COMPLETED and PENDING rows are untouched, every other field of every row is
unchanged, and no row is added or removed. -/
theorem resetFailed_frame (files : List ImportFileRow) (i : Nat) (f : ImportFileRow)
    (h : files[i]? = some f) :
    (resetFailed files).1.length = files.length ∧
    ∃ f', (resetFailed files).1[i]? = some f' ∧
      f'.archive_name = f.archive_name ∧
      f'.filename = f.filename ∧
      f'.records_imported = f.records_imported ∧
      f'.records_skipped = f.records_skipped ∧
      f'.error_message = f.error_message ∧
      f'.created_at = f.created_at ∧
      f'.completed_at = f.completed_at ∧
      ((f.status = ImportStatus.failed ∨ f.status = ImportStatus.in_progress) →
        f'.status = ImportStatus.pending) ∧
      ((f.status = ImportStatus.completed ∨ f.status = ImportStatus.pending) → f' = f) := by
  refine ⟨by simp [resetFailed], ?_⟩
  refine ⟨if resetFailedCond f then { f with status := ImportStatus.pending } else f,
    by simp [resetFailed, List.getElem?_map, h], ?_⟩
  by_cases hc : resetFailedCond f = true
  · rw [if_pos hc]
    refine ⟨rfl, rfl, rfl, rfl, rfl, rfl, rfl, fun _ => rfl, fun hs => ?_⟩
    exfalso
    rcases hs with hs | hs <;> simp [resetFailedCond, hs] at hc
  · rw [if_neg hc]
    refine ⟨rfl, rfl, rfl, rfl, rfl, rfl, rfl, fun hs => ?_, fun _ => rfl⟩
    exfalso
    rcases hs with hs | hs <;> simp [resetFailedCond, hs] at hc

/-- Witness for C10 at a concrete FAILED row. -/
theorem resetFailed_frame_witness :
    (resetFailed [⟨"a.zip", "x.xlsx", ImportStatus.failed, 1, 2, some "e", 3, none⟩]).1.length
      = [(⟨"a.zip", "x.xlsx", ImportStatus.failed, 1, 2, some "e", 3, none⟩ : ImportFileRow)].length :=
  (resetFailed_frame [⟨"a.zip", "x.xlsx", ImportStatus.failed, 1, 2, some "e", 3, none⟩] 0
    ⟨"a.zip", "x.xlsx", ImportStatus.failed, 1, 2, some "e", 3, none⟩ rfl).1

/-- C7: on any grid tall enough for the inspected header cell to exist, the
detected data-start column is 2 exactly when the inspected header cell of
row 5 contains the `"Data"` marker of the two-column date-range layout, and
the detector only ever returns 1 or 2. -/
theorem detect_format_marker (df : Grid) (_hlen : 6 ≤ df.length) :
    (detect_format df = 2 ↔ strContains (headerCellStr df) "Data" = true) ∧
    (detect_format df = 1 ∨ detect_format df = 2) := by
  unfold detect_format
  by_cases h : strContains (headerCellStr df) "Data" = true <;> simp [h]

/-- Witness for C7 on a concrete date-range-layout grid. -/
theorem detect_format_marker_witness :
    detect_format [[], [], [], [], [], [Cell.str "Data od"]] = 2 :=
  (detect_format_marker [[], [], [], [], [], [Cell.str "Data od"]] (by decide)).1.2 (by decide)

/-- C5 (helper): the record loop, for any cache and entity state. -/
theorem prepareGo_spec (records : List MeasurementRecord) :
    ∀ (db : DBState) (sc : List (String × Nat)) (ic : List ((String × String) × Nat))
      (fid : Nat),
    (prepareGo db sc ic fid records).skipped
        = (records.filter (fun r => r.value = none)).length
    ∧ (prepareGo db sc ic fid records).imported
        = (records.filter (fun r => r.value ≠ none)).length
    ∧ (prepareGo db sc ic fid records).rows.length
        = (prepareGo db sc ic fid records).imported
    ∧ (prepareGo db sc ic fid records).rows.map
        (fun m => (m.import_file_id, m.averaging_time, m.measured_at, m.value))
      = records.filterMap
          (fun r => r.value.map (fun v => (fid, r.averaging_time, r.measured_at, fmtTwoDec v))) := by
  induction records with
  | nil => intro db sc ic fid; simp [prepareGo]
  | cons r rs ih =>
    intro db sc ic fid
    match hv : r.value with
    | none =>
      have := ih db sc ic fid
      simp only [prepareGo, hv]
      simp_all [List.filter_cons, hv]
    | some v =>
      simp only [prepareGo, hv]
      have := ih (resolveIndicator (resolveStation db sc r.station_code).2.1 ic
        r.indicator_name r.unit).2.1 (resolveStation db sc r.station_code).2.2
        (resolveIndicator (resolveStation db sc r.station_code).2.1 ic
          r.indicator_name r.unit).2.2 fid
      simp_all [List.filter_cons, hv]

/-- C5: value-less records are never written to the staging buffer and are
counted as skipped, not imported; each present-valued record is serialized
once, with its file reference and its value formatted to two decimals. -/
theorem prepare_null_skip (db : DBState) (records : List MeasurementRecord) (fid : Nat) :
    (prepare_measurements_data db records fid).skipped
        = (records.filter (fun r => r.value = none)).length
    ∧ (prepare_measurements_data db records fid).imported
        = (records.filter (fun r => r.value ≠ none)).length
    ∧ (prepare_measurements_data db records fid).rows.length
        = (prepare_measurements_data db records fid).imported
    ∧ (prepare_measurements_data db records fid).rows.map
        (fun m => (m.import_file_id, m.averaging_time, m.measured_at, m.value))
      = records.filterMap
          (fun r => r.value.map (fun v => (fid, r.averaging_time, r.measured_at, fmtTwoDec v))) :=
  prepareGo_spec records db [] [] fid

/-- Resolver helper: full behaviour of one station resolution. -/
theorem resolveStation_spec (db : DBState) (sc : List (String × Nat)) (code : String)
    (i : Nat) (db' : DBState) (sc' : List (String × Nat))
    (h : resolveStation db sc code = (i, db', sc')) :
    resolveStation db' sc' code = (i, db', sc')
    ∧ cacheLookup sc' code = some i
    ∧ (cacheLookup sc code = none → code ∉ db.stations →
        db'.stations = db.stations ++ [code] ∧ i = db.stations.length)
    ∧ (cacheLookup sc code = none → code ∈ db.stations → db' = db)
    ∧ (cacheLookup sc code = some i → db' = db ∧ sc' = sc)
    ∧ (∀ p ∈ sc, p ∈ sc') := by
  match hc : cacheLookup sc code with
  | some i0 =>
    rw [resolveStation, hc] at h
    simp only [Prod.mk.injEq] at h
    obtain ⟨rfl, rfl, rfl⟩ := h
    refine ⟨by rw [resolveStation, hc], hc, ?_, ?_, ?_, fun p hp => hp⟩
    · intro hn; exact absurd hn (by simp [hc])
    · intro hn; exact absurd hn (by simp [hc])
    · intro _; exact ⟨rfl, rfl⟩
  | none =>
    rw [resolveStation, hc] at h
    have hfind : (sc.find? (fun p => p.1 == code)) = none := by
      have := hc
      unfold cacheLookup at this
      exact Option.map_eq_none.mp this
    match hg : db.stations.findIdx? (fun c => c == code) with
    | some i1 =>
      rw [get_or_create_station, hg] at h
      simp only [Prod.mk.injEq] at h
      obtain ⟨rfl, rfl, rfl⟩ := h
      have hmem : cacheLookup (sc ++ [(code, i1)]) code = some i1 := by
        unfold cacheLookup
        rw [List.find?_append, hfind]
        simp
      refine ⟨?_, hmem, ?_, fun _ _ => rfl, by simp [hc], fun p hp => List.mem_append_left _ hp⟩
      · rw [resolveStation, hmem]
      · intro _ hnot
        exfalso
        rw [List.findIdx?_eq_some_iff_getElem] at hg
        obtain ⟨hlt, hp, -⟩ := hg
        exact hnot (by
          have : db.stations[i1] = code := by simpa using hp
          rw [← this]
          exact List.getElem_mem hlt)
    | none =>
      rw [get_or_create_station, hg] at h
      simp only [Prod.mk.injEq] at h
      obtain ⟨rfl, rfl, rfl⟩ := h
      have hmem : cacheLookup (sc ++ [(code, db.stations.length)]) code
          = some db.stations.length := by
        unfold cacheLookup
        rw [List.find?_append, hfind]
        simp
      refine ⟨?_, hmem, fun _ _ => ⟨rfl, rfl⟩, ?_, by simp [hc],
        fun p hp => List.mem_append_left _ hp⟩
      · rw [resolveStation, hmem]
      · intro _ hin
        exfalso
        rw [List.findIdx?_eq_none_iff] at hg
        have := hg code hin
        simp at this

/-- Resolver helper: full behaviour of one indicator resolution. -/
theorem resolveIndicator_spec (db : DBState) (ic : List ((String × String) × Nat))
    (name unit : String) (j : Nat) (db' : DBState) (ic' : List ((String × String) × Nat))
    (h : resolveIndicator db ic name unit = (j, db', ic')) :
    resolveIndicator db' ic' name unit = (j, db', ic')
    ∧ cacheLookup ic' (name, unit) = some j
    ∧ (cacheLookup ic (name, unit) = none → (name, unit) ∉ db.indicators →
        db'.indicators = db.indicators ++ [(name, unit)] ∧ j = db.indicators.length)
    ∧ (cacheLookup ic (name, unit) = none → (name, unit) ∈ db.indicators → db' = db)
    ∧ (cacheLookup ic (name, unit) = some j → db' = db ∧ ic' = ic)
    ∧ (∀ p ∈ ic, p ∈ ic') := by
  match hc : cacheLookup ic (name, unit) with
  | some j0 =>
    rw [resolveIndicator, hc] at h
    simp only [Prod.mk.injEq] at h
    obtain ⟨rfl, rfl, rfl⟩ := h
    refine ⟨by rw [resolveIndicator, hc], hc, ?_, ?_, ?_, fun p hp => hp⟩
    · intro hn; exact absurd hn (by simp [hc])
    · intro hn; exact absurd hn (by simp [hc])
    · intro _; exact ⟨rfl, rfl⟩
  | none =>
    rw [resolveIndicator, hc] at h
    have hfind : (ic.find? (fun p => p.1 == (name, unit))) = none := by
      have := hc
      unfold cacheLookup at this
      exact Option.map_eq_none.mp this
    match hg : db.indicators.findIdx? (fun p => p == (name, unit)) with
    | some j1 =>
      rw [get_or_create_indicator, hg] at h
      simp only [Prod.mk.injEq] at h
      obtain ⟨rfl, rfl, rfl⟩ := h
      have hmem : cacheLookup (ic ++ [((name, unit), j1)]) (name, unit) = some j1 := by
        unfold cacheLookup
        rw [List.find?_append, hfind]
        simp
      refine ⟨?_, hmem, ?_, fun _ _ => rfl, by simp [hc], fun p hp => List.mem_append_left _ hp⟩
      · rw [resolveIndicator, hmem]
      · intro _ hnot
        exfalso
        rw [List.findIdx?_eq_some_iff_getElem] at hg
        obtain ⟨hlt, hp, -⟩ := hg
        exact hnot (by
          have : db.indicators[j1] = (name, unit) := by simpa using hp
          rw [← this]
          exact List.getElem_mem hlt)
    | none =>
      rw [get_or_create_indicator, hg] at h
      simp only [Prod.mk.injEq] at h
      obtain ⟨rfl, rfl, rfl⟩ := h
      have hmem : cacheLookup (ic ++ [((name, unit), db.indicators.length)]) (name, unit)
          = some db.indicators.length := by
        unfold cacheLookup
        rw [List.find?_append, hfind]
        simp
      refine ⟨?_, hmem, fun _ _ => ⟨rfl, rfl⟩, ?_, by simp [hc],
        fun p hp => List.mem_append_left _ hp⟩
      · rw [resolveIndicator, hmem]
      · intro _ hin
        exfalso
        rw [List.findIdx?_eq_none_iff] at hg
        have := hg (name, unit) hin
        simp at this

/-- C9: resolving a station code or an (indicator name, unit) pair is
idempotent — a first call for an uncached, unknown key creates exactly one
durable row (at a fresh surrogate id) and caches it; a first call for an
uncached but existing key creates nothing; replaying the call on the
resulting state returns the same id and changes nothing (served from the
cache, whose entry maps the natural key to the id); a cached call touches
neither the store nor the cache; and no cache entry is ever invalidated. -/
theorem resolver_idempotent (db : DBState) (sc : List (String × Nat))
    (ic : List ((String × String) × Nat)) (code name unit : String)
    (i j : Nat) (db1 db2 : DBState) (sc' : List (String × Nat))
    (ic' : List ((String × String) × Nat))
    (hs : resolveStation db sc code = (i, db1, sc'))
    (hi : resolveIndicator db ic name unit = (j, db2, ic')) :
    (resolveStation db1 sc' code = (i, db1, sc')
      ∧ cacheLookup sc' code = some i
      ∧ (cacheLookup sc code = none → code ∉ db.stations →
          db1.stations = db.stations ++ [code] ∧ i = db.stations.length)
      ∧ (cacheLookup sc code = none → code ∈ db.stations → db1 = db)
      ∧ (cacheLookup sc code = some i → db1 = db ∧ sc' = sc)
      ∧ (∀ p ∈ sc, p ∈ sc'))
    ∧ (resolveIndicator db2 ic' name unit = (j, db2, ic')
      ∧ cacheLookup ic' (name, unit) = some j
      ∧ (cacheLookup ic (name, unit) = none → (name, unit) ∉ db.indicators →
          db2.indicators = db.indicators ++ [(name, unit)] ∧ j = db.indicators.length)
      ∧ (cacheLookup ic (name, unit) = none → (name, unit) ∈ db.indicators → db2 = db)
      ∧ (cacheLookup ic (name, unit) = some j → db2 = db ∧ ic' = ic)
      ∧ (∀ p ∈ ic, p ∈ ic')) :=
  ⟨resolveStation_spec db sc code i db1 sc' hs,
   resolveIndicator_spec db ic name unit j db2 ic' hi⟩

/-- Witness for C9: a fresh key is created once and replays from the cache. -/
theorem resolver_idempotent_witness :
    resolveStation { stations := ["S1"], indicators := [] } [("S1", 0)] "S1"
        = (0, { stations := ["S1"], indicators := [] }, [("S1", 0)])
      ∧ cacheLookup [("S1", 0)] "S1" = some 0 :=
  ⟨(resolver_idempotent { stations := [], indicators := [] } [] [] "S1" "PM10" "ug"
      0 0 { stations := ["S1"], indicators := [] }
      { stations := [], indicators := [("PM10", "ug")] } [("S1", 0)] [(("PM10", "ug"), 0)]
      (by decide) (by decide)).1.1,
   (resolver_idempotent { stations := [], indicators := [] } [] [] "S1" "PM10" "ug"
      0 0 { stations := ["S1"], indicators := [] }
      { stations := [], indicators := [("PM10", "ug")] } [("S1", 0)] [(("PM10", "ug"), 0)]
      (by decide) (by decide)).1.2.1⟩

/-! ### Merge machinery: key lookups through the upsert fold -/

/-- Overwriting value and file reference does not move a row to another key. -/
theorem mkey_overwrite (m s : MRow) : mkey (overwrite m s) = mkey m := rfl

/-- On a key collision the update writes exactly the staged column values. -/
theorem overwrite_eq_of_mkey (m s : MRow) (h : mkey m = mkey s) : overwrite m s = s := by
  cases m
  cases s
  simp only [mkey, Prod.mk.injEq] at h
  simp [overwrite, h.1, h.2.1, h.2.2.1, h.2.2.2]

/-- Lookup after the `DO UPDATE` branch of the upsert: updating in place
commutes with lookup, since the update moves no row to another key. -/
theorem lookup_map_update (s : MRow) (M : List MRow) (k : Nat × Nat × String × ℚ) :
    lookupRow (M.map (fun m => if mkey m == mkey s then overwrite m s else m)) k
      = (lookupRow M k).map (fun m => if mkey m == mkey s then overwrite m s else m) := by
  unfold lookupRow
  rw [List.find?_map]
  have hp : ((fun m => mkey m == k) ∘ (fun m => if mkey m == mkey s then overwrite m s else m))
      = (fun m => mkey m == k) := by
    funext m
    by_cases h : (mkey m == mkey s) = true <;>
      simp [Function.comp, h, mkey_overwrite]
  rw [hp]

/-- Lookup after one upsert: the staged row wins on its own key, everything
else is untouched. -/
theorem lookupRow_upsert (M : List MRow) (s : MRow) (k : Nat × Nat × String × ℚ) :
    lookupRow (upsertRow M s) k = if k = mkey s then some s else lookupRow M k := by
  unfold upsertRow
  by_cases hA : (M.any fun m => mkey m == mkey s) = true
  · rw [if_pos hA, lookup_map_update]
    by_cases hk : k = mkey s
    · rw [if_pos hk]
      obtain ⟨x, hx, hpx⟩ := List.any_eq_true.mp hA
      have hsome : (lookupRow M k).isSome := by
        unfold lookupRow
        rw [List.find?_isSome]
        exact ⟨x, hx, by rw [beq_iff_eq] at hpx ⊢; rw [hpx, ← hk]⟩
      obtain ⟨m, hm⟩ := Option.isSome_iff_exists.mp hsome
      have hmk : mkey m = k := by
        have := List.find?_some hm
        rwa [beq_iff_eq] at this
      rw [hm]
      simp only [Option.map_some']
      rw [if_pos (beq_iff_eq.mpr (hmk.trans hk)), overwrite_eq_of_mkey m s (hmk.trans hk)]
    · rw [if_neg hk]
      cases hm : lookupRow M k with
      | none => rfl
      | some m =>
        have hmk : mkey m = k := by
          have := List.find?_some hm
          rwa [beq_iff_eq] at this
        simp only [Option.map_some']
        rw [if_neg (by rw [beq_iff_eq, hmk]; exact fun hc => hk hc)]
  · rw [if_neg hA]
    have hAf : ∀ x ∈ M, ¬ mkey x = mkey s := by
      intro x hx hc
      exact hA (List.any_eq_true.mpr ⟨x, hx, beq_iff_eq.mpr hc⟩)
    unfold lookupRow
    rw [List.find?_append]
    by_cases hk : k = mkey s
    · have h1 : M.find? (fun m => mkey m == k) = none := by
        rw [List.find?_eq_none]
        intro x hx
        simp only [beq_iff_eq, hk]
        exact hAf x hx
      have h2 : [s].find? (fun m => mkey m == k) = some s := by
        have : (mkey s == k) = true := beq_iff_eq.mpr hk.symm
        simp [List.find?, this]
      rw [h1, h2, if_pos hk]
      rfl
    · have h2 : [s].find? (fun m => mkey m == k) = none := by
        have : (mkey s == k) = false := by
          simpa using fun hc => hk hc.symm
        simp [List.find?, this]
      rw [h2, if_neg hk, Option.or_none]

/-- The fold with `bestRow` stays within the candidate pool. -/
theorem foldl_bestRow_mem (l : List MRow) (s0 : MRow) :
    l.foldl bestRow s0 = s0 ∨ l.foldl bestRow s0 ∈ l := by
  induction l generalizing s0 with
  | nil => exact Or.inl rfl
  | cons t l ih =>
    simp only [List.foldl_cons]
    rcases ih (bestRow s0 t) with h | h
    · rw [h]
      unfold bestRow
      by_cases hb : s0.import_file_id < t.import_file_id
      · rw [if_pos hb]
        exact Or.inr (List.mem_cons_self t l)
      · rw [if_neg hb]
        exact Or.inl rfl
    · exact Or.inr (List.mem_cons_of_mem t h)

/-- The fold with `bestRow` dominates its start and every candidate. -/
theorem foldl_bestRow_ge (l : List MRow) (s0 : MRow) :
    s0.import_file_id ≤ (l.foldl bestRow s0).import_file_id
    ∧ ∀ t ∈ l, t.import_file_id ≤ (l.foldl bestRow s0).import_file_id := by
  induction l generalizing s0 with
  | nil => exact ⟨Nat.le_refl _, fun t ht => absurd ht (List.not_mem_nil t)⟩
  | cons u l ih =>
    simp only [List.foldl_cons]
    obtain ⟨h1, h2⟩ := ih (bestRow s0 u)
    have hs0 : s0.import_file_id ≤ (bestRow s0 u).import_file_id := by
      unfold bestRow
      by_cases hb : s0.import_file_id < u.import_file_id
      · rw [if_pos hb]; exact Nat.le_of_lt hb
      · rw [if_neg hb]
    have hu : u.import_file_id ≤ (bestRow s0 u).import_file_id := by
      unfold bestRow
      by_cases hb : s0.import_file_id < u.import_file_id
      · rw [if_pos hb]
      · rw [if_neg hb]; omega
    refine ⟨Nat.le_trans hs0 h1, fun t ht => ?_⟩
    rcases List.mem_cons.mp ht with rfl | ht
    · exact Nat.le_trans hu h1
    · exact h2 t ht

/-- What the `DISTINCT ON` choice delivers: a staged row of the batch with
the requested key, whose `import_file_id` dominates every staged row with
that key. -/
theorem chooseFor_spec (staged : List MRow) (k : Nat × Nat × String × ℚ) (s : MRow)
    (h : chooseFor staged k = some s) :
    s ∈ staged ∧ mkey s = k
    ∧ ∀ t ∈ staged, mkey t = k → t.import_file_id ≤ s.import_file_id := by
  unfold chooseFor at h
  match hf : staged.filter (fun s => mkey s == k) with
  | [] => rw [hf] at h; exact absurd h (by simp)
  | s0 :: rest =>
    rw [hf] at h
    simp only [Option.some.injEq] at h
    have hmemf : s ∈ s0 :: rest := by
      rcases foldl_bestRow_mem rest s0 with h0 | h0
      · rw [← h, h0]; exact List.mem_cons_self s0 rest
      · rw [← h]; exact List.mem_cons_of_mem s0 h0
    have hsub : ∀ x ∈ s0 :: rest, x ∈ staged ∧ mkey x = k := by
      intro x hx
      rw [← hf] at hx
      obtain ⟨hx1, hx2⟩ := List.mem_filter.mp hx
      exact ⟨hx1, beq_iff_eq.mp hx2⟩
    obtain ⟨hmem, hkey⟩ := hsub s hmemf
    refine ⟨hmem, hkey, fun t ht htk => ?_⟩
    have htf : t ∈ s0 :: rest := by
      rw [← hf]
      exact List.mem_filter.mpr ⟨ht, beq_iff_eq.mpr htk⟩
    obtain ⟨h1, h2⟩ := foldl_bestRow_ge rest s0
    rcases List.mem_cons.mp htf with rfl | htf
    · rw [← h] at *; exact h1
    · rw [← h] at *; exact h2 t htf

/-- The `DISTINCT ON` choice is `none` exactly when the batch stages no row
with the key. -/
theorem chooseFor_eq_none_iff (staged : List MRow) (k : Nat × Nat × String × ℚ) :
    chooseFor staged k = none ↔ ∀ s ∈ staged, mkey s ≠ k := by
  unfold chooseFor
  constructor
  · intro h s hs hk
    match hf : staged.filter (fun s => mkey s == k) with
    | [] =>
      have : s ∈ staged.filter (fun s => mkey s == k) :=
        List.mem_filter.mpr ⟨hs, beq_iff_eq.mpr hk⟩
      rw [hf] at this
      exact absurd this (List.not_mem_nil s)
    | s0 :: rest => rw [hf] at h; exact absurd h (by simp)
  · intro h
    have : staged.filter (fun s => mkey s == k) = [] := by
      rw [List.filter_eq_nil_iff]
      intro s hs
      simp only [beq_iff_eq]
      exact h s hs
    rw [this]

/-- The keys listed by `(staged.map mkey).dedup` are exactly the staged keys. -/
theorem mem_dedup_keys (staged : List MRow) (k : Nat × Nat × String × ℚ) :
    k ∈ (staged.map mkey).dedup ↔ ∃ s ∈ staged, mkey s = k := by
  rw [List.mem_dedup, List.mem_map]

/-- Generic: a `find?` by key over a key-listed `filterMap`. -/
theorem find?_filterMap_chooseFor (staged : List MRow) (k : Nat × Nat × String × ℚ) :
    ∀ ks : List (Nat × Nat × String × ℚ), ks.Nodup →
    (∀ k' ∈ ks, chooseFor staged k' ≠ none) →
    (ks.filterMap (chooseFor staged)).find? (fun r => mkey r == k)
      = if k ∈ ks then chooseFor staged k else none := by
  intro ks
  induction ks with
  | nil => intro _ _; simp
  | cons k' ks ih =>
    intro hnd hall
    have hk' := hall k' (List.mem_cons_self k' ks)
    obtain ⟨r, hr⟩ := Option.ne_none_iff_exists'.mp hk'
    obtain ⟨-, hrkey, -⟩ := chooseFor_spec staged k' r hr
    rw [List.filterMap_cons, hr]
    by_cases hkk : k = k'
    · have hpr : (mkey r == k) = true := beq_iff_eq.mpr (by rw [hrkey, hkk])
      rw [List.find?_cons_of_pos]
      · rw [if_pos (by rw [hkk]; exact List.mem_cons_self k' ks), hkk, hr]
      · exact hpr
    · have hpr : ¬ ((mkey r == k) = true) := by
        simp only [beq_iff_eq, hrkey]
        exact fun hc => hkk hc.symm
      rw [List.find?_cons_of_neg]
      · rw [ih (List.Nodup.of_cons hnd) (fun x hx => hall x (List.mem_cons_of_mem k' hx))]
        have : (k ∈ k' :: ks) ↔ (k ∈ ks) := by
          rw [List.mem_cons]
          exact ⟨fun h => h.resolve_left hkk, Or.inr⟩
        by_cases hmem : k ∈ ks
        · rw [if_pos hmem, if_pos (this.mpr hmem)]
        · rw [if_neg hmem, if_neg (fun hc => hmem (this.mp hc))]
      · exact hpr

/-- Finding a key among the deduplicated staged rows is exactly the
`DISTINCT ON` choice for that key. -/
theorem find?_dedupStaging (staged : List MRow) (k : Nat × Nat × String × ℚ) :
    (dedupStaging staged).find? (fun r => mkey r == k) = chooseFor staged k := by
  unfold dedupStaging
  rw [find?_filterMap_chooseFor staged k _ (List.nodup_dedup _)]
  · by_cases hmem : k ∈ (staged.map mkey).dedup
    · rw [if_pos hmem]
    · rw [if_neg hmem]
      rcases hc : chooseFor staged k with - | r
      · rfl
      · obtain ⟨hr1, hr2, -⟩ := chooseFor_spec staged k r hc
        exact absurd ((mem_dedup_keys staged k).mpr ⟨r, hr1, hr2⟩) hmem
  · intro k' hk'
    obtain ⟨s, hs, hsk⟩ := (mem_dedup_keys staged k').mp hk'
    intro hc
    exact ((chooseFor_eq_none_iff staged k').mp hc) s hs hsk

/-- Keys are pairwise distinct across the deduplicated staged rows. -/
theorem dedupStaging_keys_nodup (staged : List MRow) :
    ((dedupStaging staged).map mkey).Nodup := by
  unfold dedupStaging
  have h : ∀ ks : List (Nat × Nat × String × ℚ), ks.Nodup →
      ((ks.filterMap (chooseFor staged)).map mkey).Nodup ∧
      (∀ k' ∈ (ks.filterMap (chooseFor staged)).map mkey, k' ∈ ks) := by
    intro ks
    induction ks with
    | nil => intro _; simp
    | cons k' ks ih =>
      intro hnd
      obtain ⟨ih1, ih2⟩ := ih (List.Nodup.of_cons hnd)
      rw [List.filterMap_cons]
      rcases hc : chooseFor staged k' with - | r
      · exact ⟨ih1, fun x hx => List.mem_cons_of_mem k' (ih2 x hx)⟩
      · obtain ⟨-, hrkey, -⟩ := chooseFor_spec staged k' r hc
        rw [List.map_cons, hrkey]
        constructor
        · rw [List.nodup_cons]
          refine ⟨fun hmem => ?_, ih1⟩
          exact (List.nodup_cons.mp hnd).1 (ih2 k' hmem)
        · intro x hx
          rcases List.mem_cons.mp hx with rfl | hx
          · exact List.mem_cons_self x ks
          · exact List.mem_cons_of_mem k' (ih2 x hx)
  exact (h _ (List.nodup_dedup _)).1

/-- Lookup through the whole merge: on a staged key the `DISTINCT ON` winner
is what ends up in the table; other keys read as before. -/
theorem lookupRow_merge (M staged : List MRow) (k : Nat × Nat × String × ℚ) :
    lookupRow (copy_measurements_to_db M staged) k
      = match chooseFor staged k with
        | some s => some s
        | none => lookupRow M k := by
  unfold copy_measurements_to_db
  rw [← find?_dedupStaging staged k]
  have h : ∀ d : List MRow, (d.map mkey).Nodup → ∀ M,
      lookupRow (d.foldl upsertRow M) k
        = match d.find? (fun r => mkey r == k) with
          | some s => some s
          | none => lookupRow M k := by
    intro d
    induction d with
    | nil => intro _ M; simp
    | cons s d ih =>
      intro hnd M
      simp only [List.foldl_cons]
      rw [ih (by
        rw [List.map_cons, List.nodup_cons] at hnd
        exact hnd.2)]
      by_cases hks : k = mkey s
      · have hfd : d.find? (fun r => mkey r == k) = none := by
          rw [List.find?_eq_none]
          intro x hx
          simp only [beq_iff_eq, hks]
          intro hc
          rw [List.map_cons, List.nodup_cons] at hnd
          exact hnd.1 (hc ▸ List.mem_map_of_mem mkey hx)
        have hps : (mkey s == k) = true := beq_iff_eq.mpr hks.symm
        rw [hfd]
        simp only [List.find?_cons, hps]
        rw [lookupRow_upsert, if_pos hks]
      · have hps : (mkey s == k) = false := by
          simpa using fun hc => hks hc.symm
        simp only [List.find?_cons, hps]
        rcases hfd : d.find? (fun r => mkey r == k) with - | r
        · rw [lookupRow_upsert, if_neg hks]
        · rfl
  exact h (dedupStaging staged) (dedupStaging_keys_nodup staged) M

/-- One upsert either keeps the key list (update) or appends the new key. -/
theorem upsert_map_mkey (M : List MRow) (s : MRow) :
    (upsertRow M s).map mkey
      = if (M.any fun m => mkey m == mkey s) then M.map mkey
        else M.map mkey ++ [mkey s] := by
  unfold upsertRow
  by_cases hA : (M.any fun m => mkey m == mkey s) = true
  · rw [if_pos hA, if_pos hA, List.map_map]
    congr 1
    funext m
    by_cases h : (mkey m == mkey s) = true <;>
      simp [Function.comp, h, mkey_overwrite]
  · rw [if_neg hA, if_neg hA, List.map_append]
    rfl

/-- One upsert preserves key distinctness. -/
theorem upsert_nodup_keys (M : List MRow) (s : MRow)
    (hnd : (M.map mkey).Nodup) : ((upsertRow M s).map mkey).Nodup := by
  rw [upsert_map_mkey]
  by_cases hA : (M.any fun m => mkey m == mkey s) = true
  · rw [if_pos hA]; exact hnd
  · rw [if_neg hA]
    rw [List.nodup_append]
    refine ⟨hnd, List.nodup_singleton _, ?_⟩
    intro x hx hxs
    rcases List.mem_map.mp hx with ⟨m, hm, rfl⟩
    have heq : mkey m = mkey s := List.mem_singleton.mp hxs
    exact hA (List.any_eq_true.mpr ⟨m, hm, beq_iff_eq.mpr heq⟩)

/-- The merge preserves key distinctness of the durable table. -/
theorem merge_nodup_keys (M staged : List MRow)
    (hnd : (M.map mkey).Nodup) :
    ((copy_measurements_to_db M staged).map mkey).Nodup := by
  unfold copy_measurements_to_db
  have h : ∀ d : List MRow, ∀ M, (M.map mkey).Nodup →
      ((d.foldl upsertRow M).map mkey).Nodup := by
    intro d
    induction d with
    | nil => intro M h; exact h
    | cons s d ih =>
      intro M h
      exact ih (upsertRow M s) (upsert_nodup_keys M s h)
  exact h (dedupStaging staged) M hnd

/-- One upsert, seen positionally: an existing row keeps its slot; it is
overwritten exactly when it carries the staged key. -/
theorem getElem?_upsert (M : List MRow) (s : MRow) (i : Nat) (m : MRow)
    (h : M[i]? = some m) :
    (upsertRow M s)[i]? = some (if mkey m = mkey s then overwrite m s else m) := by
  unfold upsertRow
  by_cases hA : (M.any fun m => mkey m == mkey s) = true
  · rw [if_pos hA, List.getElem?_map, h]
    simp only [Option.map_some']
    by_cases hm : mkey m = mkey s
    · rw [if_pos (beq_iff_eq.mpr hm), if_pos hm]
    · rw [if_neg (by simpa using hm), if_neg hm]
  · rw [if_neg hA]
    have hlt : i < M.length := by
      by_contra hge
      rw [List.getElem?_eq_none (Nat.le_of_not_lt hge)] at h
      exact absurd h (by simp)
    have hm : mkey m ≠ mkey s := by
      intro hc
      exact hA (List.any_eq_true.mpr ⟨m, by
        have := List.getElem?_eq_some_iff.mp h
        obtain ⟨hw, hval⟩ := this
        rw [← hval]
        exact List.getElem_mem hw, beq_iff_eq.mpr hc⟩)
    rw [if_neg hm, List.getElem?_append_left hlt, h]

/-- The merge, seen positionally: every durable row keeps its slot, and the
only change it can see is the overwrite by its own key's winner. -/
theorem getElem?_merge (M staged : List MRow) (i : Nat) (m : MRow)
    (h : M[i]? = some m) :
    (copy_measurements_to_db M staged)[i]?
      = some (match chooseFor staged (mkey m) with
              | some s => overwrite m s
              | none => m) := by
  unfold copy_measurements_to_db
  rw [← find?_dedupStaging staged (mkey m)]
  have hgen : ∀ d : List MRow, (d.map mkey).Nodup →
      ∀ (M : List MRow) (i : Nat) (m : MRow), M[i]? = some m →
      (d.foldl upsertRow M)[i]?
        = some (match d.find? (fun r => mkey r == mkey m) with
                | some s => overwrite m s
                | none => m) := by
    intro d
    induction d with
    | nil => intro _ M i m h; simpa using h
    | cons s d ih =>
      intro hnd M i m h
      simp only [List.foldl_cons]
      have hnd' : (d.map mkey).Nodup := by
        rw [List.map_cons, List.nodup_cons] at hnd
        exact hnd.2
      by_cases hm : mkey m = mkey s
      · have hstep := getElem?_upsert M s i m h
        rw [if_pos hm] at hstep
        have := ih hnd' (upsertRow M s) i (overwrite m s) hstep
        rw [this]
        have hfd : d.find? (fun r => mkey r == mkey (overwrite m s)) = none := by
          rw [List.find?_eq_none]
          intro x hx
          simp only [beq_iff_eq, mkey_overwrite, hm]
          intro hc
          rw [List.map_cons, List.nodup_cons] at hnd
          exact hnd.1 (hc ▸ List.mem_map_of_mem mkey hx)
        rw [hfd]
        have hps : (mkey s == mkey m) = true := beq_iff_eq.mpr hm.symm
        simp only [List.find?_cons, hps]
      · have hstep := getElem?_upsert M s i m h
        rw [if_neg hm] at hstep
        have := ih hnd' (upsertRow M s) i m hstep
        rw [this]
        have hps : (mkey s == mkey m) = false := by
          simpa using fun hc => hm hc.symm
        simp only [List.find?_cons, hps]
  exact hgen (dedupStaging staged) (dedupStaging_keys_nodup staged) M i m h

/-- In a key-distinct table each key occurs on at most one row, exactly once
when it is present. -/
theorem countP_key_of_nodup (M : List MRow) (k : Nat × Nat × String × ℚ)
    (hnd : (M.map mkey).Nodup) :
    M.countP (fun r => mkey r == k)
      = if (lookupRow M k).isSome then 1 else 0 := by
  induction M with
  | nil => simp [lookupRow]
  | cons m M ih =>
    rw [List.map_cons, List.nodup_cons] at hnd
    by_cases hm : (mkey m == k) = true
    · have hkeq : mkey m = k := beq_iff_eq.mp hm
      have hzero : M.countP (fun r => mkey r == k) = 0 := by
        rw [List.countP_eq_zero]
        intro x hx
        simp only [beq_iff_eq]
        intro hc
        exact hnd.1 (by rw [hkeq, ← hc]; exact List.mem_map_of_mem mkey hx)
      rw [List.countP_cons, hzero, hm]
      simp only [lookupRow, List.find?_cons, hm]
      simp
    · rw [List.countP_cons, if_neg (by simpa using hm)]
      have hmf : (mkey m == k) = false := by simpa using hm
      simp only [lookupRow, List.find?_cons, hmf]
      rw [ih hnd.2]
      simp [lookupRow]

/-- Membership in a key-distinct table is exactly a successful lookup. -/
theorem mem_iff_lookup (M : List MRow) (r : MRow)
    (hnd : (M.map mkey).Nodup) :
    r ∈ M ↔ lookupRow M (mkey r) = some r := by
  induction M with
  | nil => simp [lookupRow]
  | cons m M ih =>
    rw [List.map_cons, List.nodup_cons] at hnd
    by_cases hm : (mkey m == mkey r) = true
    · have hkeq : mkey m = mkey r := beq_iff_eq.mp hm
      simp only [lookupRow, List.find?_cons, hm]
      constructor
      · intro hmem
        rcases List.mem_cons.mp hmem with rfl | hmem
        · rfl
        · exact absurd (hkeq ▸ List.mem_map_of_mem mkey hmem) hnd.1
      · intro hsome
        rw [List.mem_cons]
        exact Or.inl (Option.some.inj hsome).symm
    · have hmf : (mkey m == mkey r) = false := by simpa using hm
      simp only [lookupRow, List.find?_cons, hmf]
      rw [List.mem_cons]
      constructor
      · intro hc
        rcases hc with rfl | hmem
        · exact absurd (by simp) hm
        · exact (ih hnd.2).mp hmem
      · intro hl
        exact Or.inr ((ih hnd.2).mpr hl)

/-- C1: merging a staged batch resolves every staged key deterministically —
a staged row with the maximal `import_file_id` for its key is the one whose
value and file reference land in the table; the merged table carries exactly
one row for the key (never a duplicate); and when a durable row already
carried the key it is overwritten in its slot with the winner's value and
file reference. -/
theorem merge_conflict_resolution (M staged : List MRow) (k : Nat × Nat × String × ℚ)
    (hnd : (M.map mkey).Nodup) (hstaged : ∃ s ∈ staged, mkey s = k) :
    ∃ s', s' ∈ staged ∧ mkey s' = k
      ∧ (∀ t ∈ staged, mkey t = k → t.import_file_id ≤ s'.import_file_id)
      ∧ lookupRow (copy_measurements_to_db M staged) k = some s'
      ∧ (copy_measurements_to_db M staged).countP (fun r => mkey r == k) = 1
      ∧ (∀ (i : Nat) (m : MRow), M[i]? = some m → mkey m = k →
          (copy_measurements_to_db M staged)[i]? = some (overwrite m s')) := by
  rcases hc : chooseFor staged k with - | s'
  · obtain ⟨s, hs, hsk⟩ := hstaged
    exact absurd hsk ((chooseFor_eq_none_iff staged k).mp hc s hs)
  · obtain ⟨hmem, hkey, hmax⟩ := chooseFor_spec staged k s' hc
    have hlook : lookupRow (copy_measurements_to_db M staged) k = some s' := by
      rw [lookupRow_merge, hc]
    refine ⟨s', hmem, hkey, hmax, hlook, ?_, ?_⟩
    · rw [countP_key_of_nodup _ _ (merge_nodup_keys M staged hnd), hlook]
      rfl
    · intro i m him hmk
      rw [getElem?_merge M staged i m him, hmk, hc]

/-- Witness for C1: two staged rows collide on one key that already exists
durably; the row from the later file wins and overwrites in place. -/
theorem merge_conflict_resolution_witness :
    ∃ s', s' ∈ [(⟨0, 0, 1, "24g", 0, 100⟩ : MRow), ⟨0, 0, 2, "24g", 0, 200⟩]
      ∧ mkey s' = (0, 0, "24g", (0 : ℚ))
      ∧ (∀ t ∈ [(⟨0, 0, 1, "24g", 0, 100⟩ : MRow), ⟨0, 0, 2, "24g", 0, 200⟩],
            mkey t = (0, 0, "24g", (0 : ℚ)) → t.import_file_id ≤ s'.import_file_id)
      ∧ lookupRow (copy_measurements_to_db [⟨0, 0, 9, "24g", 0, 7⟩]
            [⟨0, 0, 1, "24g", 0, 100⟩, ⟨0, 0, 2, "24g", 0, 200⟩]) (0, 0, "24g", (0 : ℚ))
          = some s'
      ∧ (copy_measurements_to_db [⟨0, 0, 9, "24g", 0, 7⟩]
            [⟨0, 0, 1, "24g", 0, 100⟩, ⟨0, 0, 2, "24g", 0, 200⟩]).countP
            (fun r => mkey r == (0, 0, "24g", (0 : ℚ))) = 1
      ∧ (∀ (i : Nat) (m : MRow), [(⟨0, 0, 9, "24g", 0, 7⟩ : MRow)][i]? = some m →
          mkey m = (0, 0, "24g", (0 : ℚ)) →
          (copy_measurements_to_db [⟨0, 0, 9, "24g", 0, 7⟩]
            [⟨0, 0, 1, "24g", 0, 100⟩, ⟨0, 0, 2, "24g", 0, 200⟩])[i]?
              = some (overwrite m s')) :=
  merge_conflict_resolution [⟨0, 0, 9, "24g", 0, 7⟩]
    [⟨0, 0, 1, "24g", 0, 100⟩, ⟨0, 0, 2, "24g", 0, 200⟩] (0, 0, "24g", (0 : ℚ))
    (by decide) ⟨⟨0, 0, 1, "24g", 0, 100⟩, by decide, by decide⟩

/-- Every reachable measurement table has pairwise distinct keys. -/
theorem reachable_nodup (M : List MRow) (h : ReachableM M) : (M.map mkey).Nodup := by
  induction h with
  | init => simp
  | step M staged _ ih => exact merge_nodup_keys M staged ih

/-- C3: in every measurement-table state reachable by any sequence of batch
merges from the initial empty table, no two rows share the same
(station_id, indicator_id, averaging_time, measured_at) tuple. -/
theorem measurement_key_unique (M : List MRow) (h : ReachableM M) :
    M.Pairwise (fun a b => mkey a ≠ mkey b) := by
  have hnd := reachable_nodup M h
  rw [List.Nodup, List.pairwise_map] at hnd
  exact hnd

/-- Witness for C3 at a concrete reachable state. -/
theorem measurement_key_unique_witness :
    (copy_measurements_to_db [] [⟨0, 0, 1, "24g", 0, 100⟩, ⟨1, 0, 1, "24g", 0, 50⟩]).Pairwise
      (fun a b => mkey a ≠ mkey b) :=
  measurement_key_unique _
    (ReachableM.step [] [⟨0, 0, 1, "24g", 0, 100⟩, ⟨1, 0, 1, "24g", 0, 50⟩] ReachableM.init)

/-- Accumulator form of `finalChoice`: a later batch's choice overrides any
starting accumulator. -/
theorem finalChoice_foldl_acc (k : Nat × Nat × String × ℚ) (bs : List (List MRow))
    (acc : Option MRow) :
    bs.foldl (fun acc b =>
        match chooseFor b k with
        | some s => some s
        | none => acc) acc
      = match finalChoice bs k with
        | some s => some s
        | none => acc := by
  unfold finalChoice
  induction bs generalizing acc with
  | nil => rfl
  | cons b bs ih =>
    simp only [List.foldl_cons]
    rw [ih, ih (match chooseFor b k with
      | some s => some s
      | none => none)]
    rcases hf : bs.foldl (fun acc b =>
        match chooseFor b k with
        | some s => some s
        | none => acc) none with - | s
    · rw [hf]
      rcases hb : chooseFor b k with - | s0 <;> rfl
    · rw [hf]

/-- Lookup through a whole sequence of merged batches: the last batch that
stages the key wins; an unstaged key reads as in the initial table. -/
theorem lookupRow_mergeBatches (M : List MRow) (bs : List (List MRow))
    (k : Nat × Nat × String × ℚ) :
    lookupRow (mergeBatches M bs) k
      = match finalChoice bs k with
        | some s => some s
        | none => lookupRow M k := by
  induction bs generalizing M with
  | nil => rfl
  | cons b bs ih =>
    unfold mergeBatches at ih ⊢
    simp only [List.foldl_cons]
    rw [ih]
    have hstep : finalChoice (b :: bs) k
        = match finalChoice bs k with
          | some s => some s
          | none => (match chooseFor b k with
                     | some s => some s
                     | none => none) := by
      unfold finalChoice
      simp only [List.foldl_cons]
      exact finalChoice_foldl_acc k bs _
    rw [hstep]
    rcases hf : finalChoice bs k with - | s
    · rcases hb : chooseFor b k with - | s0
      · rw [lookupRow_merge, hb]
      · rw [lookupRow_merge, hb]
    · rfl

/-- A key no batch stages is staged by no prefix of the batches either. -/
theorem finalChoice_eq_none_iff (bs : List (List MRow)) (k : Nat × Nat × String × ℚ) :
    finalChoice bs k = none ↔ ∀ b ∈ bs, chooseFor b k = none := by
  induction bs with
  | nil => simp [finalChoice]
  | cons b bs ih =>
    unfold finalChoice
    simp only [List.foldl_cons]
    rw [finalChoice_foldl_acc k bs]
    constructor
    · intro h
      rcases hf : finalChoice bs k with - | s
      · rw [hf] at h
        intro b' hb'
        rcases List.mem_cons.mp hb' with rfl | hb'
        · rcases hb : chooseFor b' k with - | s0
          · rfl
          · rw [hb] at h; exact absurd h (by simp)
        · exact (ih.mp hf) b' hb'
      · rw [hf] at h; exact absurd h (by simp)
    · intro h
      have hf : finalChoice bs k = none :=
        ih.mpr (fun b' hb' => h b' (List.mem_cons_of_mem b hb'))
      rw [hf, h b (List.mem_cons_self b bs)]

/-- Merging any batch sequence preserves key distinctness. -/
theorem mergeBatches_nodup (M : List MRow) (bs : List (List MRow))
    (hnd : (M.map mkey).Nodup) : ((mergeBatches M bs).map mkey).Nodup := by
  induction bs generalizing M with
  | nil => exact hnd
  | cons b bs ih =>
    unfold mergeBatches at ih ⊢
    simp only [List.foldl_cons]
    exact ih (copy_measurements_to_db M b) (merge_nodup_keys M b hnd)

/-- C2: replaying a prefix of the batch sequence before re-merging the whole
sequence — reprocessing the file from scratch after a partial failure, or
re-importing it completely — leaves exactly the same durable measurement
rows as a single clean run, with no duplicated key on either side. -/
theorem merge_idempotent_replay (M : List MRow) (bs : List (List MRow)) (n : Nat)
    (hnd : (M.map mkey).Nodup) :
    (∀ r : MRow, r ∈ mergeBatches (mergeBatches M (bs.take n)) bs ↔ r ∈ mergeBatches M bs)
    ∧ ((mergeBatches (mergeBatches M (bs.take n)) bs).map mkey).Nodup
    ∧ ((mergeBatches M bs).map mkey).Nodup := by
  have hnd1 : ((mergeBatches M (bs.take n)).map mkey).Nodup :=
    mergeBatches_nodup M (bs.take n) hnd
  have hnd2 : ((mergeBatches (mergeBatches M (bs.take n)) bs).map mkey).Nodup :=
    mergeBatches_nodup _ bs hnd1
  have hnd3 : ((mergeBatches M bs).map mkey).Nodup := mergeBatches_nodup M bs hnd
  have hlook : ∀ k, lookupRow (mergeBatches (mergeBatches M (bs.take n)) bs) k
      = lookupRow (mergeBatches M bs) k := by
    intro k
    rw [lookupRow_mergeBatches, lookupRow_mergeBatches, lookupRow_mergeBatches]
    rcases hf : finalChoice bs k with - | s
    · have hpre : finalChoice (bs.take n) k = none := by
        rw [finalChoice_eq_none_iff] at hf ⊢
        exact fun b hb => hf b (List.mem_of_mem_take hb)
      rw [hpre]
    · rfl
  refine ⟨fun r => ?_, hnd2, hnd3⟩
  rw [mem_iff_lookup _ r hnd2, mem_iff_lookup _ r hnd3, hlook (mkey r)]

/-- Witness for C2: one batch partially committed, then the whole file
re-imported; an individual row's membership agrees with the clean run. -/
theorem merge_idempotent_replay_witness :
    (⟨0, 0, 2, "24g", 0, 200⟩ : MRow)
        ∈ mergeBatches (mergeBatches [] ([[⟨0, 0, 1, "24g", 0, 100⟩],
            [⟨0, 0, 2, "24g", 0, 200⟩]].take 1))
            [[⟨0, 0, 1, "24g", 0, 100⟩], [⟨0, 0, 2, "24g", 0, 200⟩]]
      ↔ (⟨0, 0, 2, "24g", 0, 200⟩ : MRow)
        ∈ mergeBatches [] [[⟨0, 0, 1, "24g", 0, 100⟩], [⟨0, 0, 2, "24g", 0, 200⟩]] :=
  (merge_idempotent_replay [] [[⟨0, 0, 1, "24g", 0, 100⟩], [⟨0, 0, 2, "24g", 0, 200⟩]] 1
    (by decide)).1 ⟨0, 0, 2, "24g", 0, 200⟩

/-- First-match characterisation of `find?` over `range'`. -/
theorem find?_range'_spec (p : Nat → Bool) :
    ∀ (len start i : Nat), (List.range' start len).find? p = some i →
      start ≤ i ∧ i < start + len ∧ p i = true
      ∧ ∀ j, start ≤ j → j < i → p j = false := by
  intro len
  induction len with
  | zero => intro start i h; simp [List.range'] at h
  | succ n ih =>
    intro start i h
    rw [List.range'_succ] at h
    by_cases hp : p start = true
    · rw [List.find?_cons_of_pos _ hp] at h
      obtain rfl := Option.some.inj h
      exact ⟨Nat.le_refl _, by omega, hp, fun j h1 h2 => absurd (Nat.lt_of_le_of_lt h1 h2)
        (Nat.lt_irrefl _)⟩
    · rw [List.find?_cons_of_neg _ hp] at h
      obtain ⟨h1, h2, h3, h4⟩ := ih (start + 1) i h
      refine ⟨by omega, by omega, h3, fun j hj1 hj2 => ?_⟩
      by_cases hstart : j = start
      · rw [hstart, Bool.not_eq_true] at *
        exact hp
      · exact h4 j (by omega) hj2

/-- C8: the detector returns the first index in rows 5 .. min(15, height)-1
whose column-0 cell is a timestamp value or an ISO-parseable string, and the
fixed default row 6 when no row of that range qualifies. -/
theorem detect_data_start_row_spec (df : Grid) :
    (∀ i : Nat, 5 ≤ i → i < min 15 df.length → looksLikeTS (cellAt df i 0) = true →
      (∀ j : Nat, j < i → 5 ≤ j → looksLikeTS (cellAt df j 0) = false) →
      detect_data_start_row df = i)
    ∧ ((∀ i : Nat, i < min 15 df.length → 5 ≤ i → looksLikeTS (cellAt df i 0) = false) →
      detect_data_start_row df = 6) := by
  constructor
  · intro i h5 hlt hts hmin
    have hmem : i ∈ List.range' 5 (min 15 df.length - 5) := by
      rw [List.mem_range'_1]
      omega
    have hsome : ((List.range' 5 (min 15 df.length - 5)).find?
        (fun idx => looksLikeTS (cellAt df idx 0))).isSome := by
      rw [List.find?_isSome]
      exact ⟨i, hmem, hts⟩
    obtain ⟨i0, hi0⟩ := Option.isSome_iff_exists.mp hsome
    obtain ⟨ha, hb, hc, hd⟩ := find?_range'_spec _ _ _ _ hi0
    have : i0 = i := by
      rcases Nat.lt_trichotomy i0 i with hlt2 | heq | hgt
      · exact absurd hc (by rw [hmin i0 hlt2 ha]; simp)
      · exact heq
      · exact absurd hts (by rw [hd i (by omega) hgt]; simp)
    unfold detect_data_start_row
    rw [hi0, this]
  · intro hnone
    unfold detect_data_start_row
    have : (List.range' 5 (min 15 df.length - 5)).find?
        (fun idx => looksLikeTS (cellAt df idx 0)) = none := by
      rw [List.find?_eq_none]
      intro x hx
      rw [List.mem_range'_1] at hx
      have h1 : x < min 15 df.length := by omega
      have h2 : 5 ≤ x := by omega
      rw [hnone x h1 h2]
      simp
    rw [this]

/-- Witness for C8: a grid whose first qualifying row is 7, and a grid with
no qualifying row falling back to the default row 6. -/
theorem detect_data_start_row_spec_witness :
    detect_data_start_row [[], [], [], [], [], [Cell.str "x"], [Cell.num 3], [Cell.ts 5]] = 7
    ∧ detect_data_start_row [[], [], [], [], [], [Cell.str "x"], [Cell.num 3]] = 6 :=
  ⟨(detect_data_start_row_spec
      [[], [], [], [], [], [Cell.str "x"], [Cell.num 3], [Cell.ts 5]]).1 7
      (by decide) (by decide) (by decide) (by decide),
   (detect_data_start_row_spec [[], [], [], [], [], [Cell.str "x"], [Cell.num 3]]).2
      (by decide)⟩

/-- C6: a data row with no usable column-0 timestamp contributes no records
at all; a row with one emits exactly one record per data column, carrying
that column's header data and `parseValue` of its cell — absence or a failed
numeric parse yields a record with value `none`, never a dropped record —
and comma-decimal cells normalise, so `"12,5"` parses to 12.5; the file
parser applies this to every row from the detected data-start row on. -/
theorem parse_data_row_spec (meta : FileMetadata) (src : String) (row : List Cell) :
    (timestampOfCell (row.getD 0 Cell.empty) = none → parseDataRow meta src row = [])
    ∧ (∀ t : ℚ, timestampOfCell (row.getD 0 Cell.empty) = some t →
        (parseDataRow meta src row).length = meta.station_codes.length
        ∧ (∀ (i : Nat) (code : String), meta.station_codes[i]? = some code →
            (parseDataRow meta src row)[i]?
              = some { station_code := code
                       indicator_name := meta.indicator_name
                       unit := meta.units.getD i ""
                       averaging_time := meta.averaging_time
                       measured_at := t
                       value := parseValue (row.getD (meta.data_start_col + i) Cell.empty)
                       source_file := src }))
    ∧ parseValue Cell.empty = none
    ∧ parseValue (Cell.str "12,5") = some (25 / 2)
    ∧ (∀ df : Grid, parse_xlsx_file df src
        = (df.drop (parse_xlsx_metadata df).data_start_row).flatMap
            (parseDataRow (parse_xlsx_metadata df) src)) := by
  refine ⟨?_, ?_, rfl, ?_, fun df => rfl⟩
  · intro h
    unfold parseDataRow
    rw [h]
  · intro t h
    unfold parseDataRow
    rw [h]
    constructor
    · simp
    · intro i code hc
      rw [List.getElem?_map, List.getElem?_enum, hc]
      rfl
  · have h : parseValue (Cell.str "12,5")
        = some ((1 : ℚ) * (((12 : Nat) : ℚ) + ((5 : Nat) : ℚ) / (10 : ℚ) ^ (1 : Nat))) := rfl
    rw [h]
    norm_num

/-- Witness for C6: a concrete two-column row with a numeric cell and a
missing cell under a timestamped column 0. -/
theorem parse_data_row_spec_witness :
    (parseDataRow ⟨"PM10", "24g", ["S1", "S2"], ["ug", "ug"], 1, 6⟩ "f"
        [Cell.ts 3, Cell.num 7, Cell.empty]).length = 2
    ∧ (parseDataRow ⟨"PM10", "24g", ["S1", "S2"], ["ug", "ug"], 1, 6⟩ "f"
        [Cell.ts 3, Cell.num 7, Cell.empty])[0]?
        = some ⟨"S1", "PM10", "ug", "24g", 3, some 7, "f"⟩
    ∧ (parseDataRow ⟨"PM10", "24g", ["S1", "S2"], ["ug", "ug"], 1, 6⟩ "f"
        [Cell.ts 3, Cell.num 7, Cell.empty])[1]?
        = some ⟨"S2", "PM10", "ug", "24g", 3, none, "f"⟩ :=
  ⟨((parse_data_row_spec ⟨"PM10", "24g", ["S1", "S2"], ["ug", "ug"], 1, 6⟩ "f"
      [Cell.ts 3, Cell.num 7, Cell.empty]).2.1 3 rfl).1,
   ((parse_data_row_spec ⟨"PM10", "24g", ["S1", "S2"], ["ug", "ug"], 1, 6⟩ "f"
      [Cell.ts 3, Cell.num 7, Cell.empty]).2.1 3 rfl).2 0 "S1" rfl,
   ((parse_data_row_spec ⟨"PM10", "24g", ["S1", "S2"], ["ug", "ug"], 1, 6⟩ "f"
      [Cell.ts 3, Cell.num 7, Cell.empty]).2.1 3 rfl).2 1 "S2" rfl⟩

/-! ### Import-file state machine -/

/-- Positional behaviour of the in-place row update. -/
theorem updateAt_getElem? {α : Type} (l : List α) (i : Nat) (g : α → α) (j : Nat) :
    (updateAt l i g)[j]? = if j = i then (l[i]?).map g else l[j]? := by
  induction l generalizing i j with
  | nil =>
    unfold updateAt
    by_cases h : j = i <;> simp [h]
  | cons x xs ih =>
    match i with
    | 0 =>
      unfold updateAt
      match j with
      | 0 => simp
      | j + 1 => simp
    | i + 1 =>
      unfold updateAt
      match j with
      | 0 => simp
      | j + 1 =>
        simp only [List.getElem?_cons_succ]
        rw [ih]
        by_cases h : j = i
        · rw [if_pos h, if_pos (by omega)]
        · rw [if_neg h, if_neg (by omega)]

/-- A first match at position `i` is what `find?` returns. -/
theorem find?_first_match {α : Type} (l : List α) (p : α → Bool) :
    ∀ (i : Nat) (x : α), l[i]? = some x → p x = true →
    (∀ j, j < i → ∀ y, l[j]? = some y → p y = false) →
    l.find? p = some x := by
  induction l with
  | nil => intro i x hx; simp at hx
  | cons a l ih =>
    intro i x hx hpx hmin
    match i with
    | 0 =>
      simp only [List.getElem?_cons_zero, Option.some.injEq] at hx
      rw [← hx] at hpx
      rw [List.find?_cons_of_pos _ hpx, hx]
    | i + 1 =>
      simp only [List.getElem?_cons_succ] at hx
      have hpa : p a = false := hmin 0 (Nat.succ_pos i) a (by simp)
      rw [List.find?_cons_of_neg _ (by simp [hpa])]
      exact ih i x hx hpx (fun j hj y hy =>
        hmin (j + 1) (by omega) y (by simpa using hy))

/-- Characterisation of `get_or_create_import_file`: either the first
matching row is returned, or a fresh PENDING row is appended. -/
theorem get_or_create_import_file_spec (files : List ImportFileRow) (a fn : String)
    (now : Nat) (i : Nat) (files1 : List ImportFileRow)
    (h : get_or_create_import_file files a fn now = (i, files1)) :
    (files1 = files
      ∧ (∃ fi, files[i]? = some fi ∧ fileKeyMatches a fn fi = true)
      ∧ (∀ j, j < i → ∀ y, files[j]? = some y → fileKeyMatches a fn y = false))
    ∨ (files1 = files ++ [⟨a, fn, ImportStatus.pending, 0, 0, none, now, none⟩]
      ∧ i = files.length
      ∧ (∀ y ∈ files, fileKeyMatches a fn y = false)) := by
  unfold get_or_create_import_file at h
  rcases hidx : files.findIdx? (fileKeyMatches a fn) with - | i0
  · rw [hidx] at h
    simp only [Prod.mk.injEq] at h
    obtain ⟨rfl, rfl⟩ := h
    refine Or.inr ⟨rfl, rfl, ?_⟩
    rw [List.findIdx?_eq_none_iff] at hidx
    exact hidx
  · rw [hidx] at h
    simp only [Prod.mk.injEq] at h
    obtain ⟨rfl, rfl⟩ := h
    rw [List.findIdx?_eq_some_iff_getElem] at hidx
    obtain ⟨hlt, hp, hmin⟩ := hidx
    refine Or.inl ⟨rfl, ⟨files[i0], by rw [List.getElem?_eq_getElem hlt], hp⟩, ?_⟩
    intro j hj y hy
    have hjlt : j < files.length := Nat.lt_trans hj hlt
    have := hmin j hj
    rw [List.getElem?_eq_getElem hjlt, Option.some.injEq] at hy
    rw [← hy]
    simpa using this

/-- The key fields survive a reset, and the status either becomes PENDING or
is untouched. -/
theorem reset_row_fields (a fn : String) (f : ImportFileRow) :
    fileKeyMatches a fn (if resetFailedCond f then { f with status := ImportStatus.pending }
        else f) = fileKeyMatches a fn f
    ∧ ((if resetFailedCond f then { f with status := ImportStatus.pending } else f).status
          = ImportStatus.pending
        ∨ (if resetFailedCond f then { f with status := ImportStatus.pending } else f).status
          = f.status) := by
  by_cases hc : resetFailedCond f = true
  · rw [if_pos hc]
    exact ⟨rfl, Or.inl rfl⟩
  · rw [if_neg hc]
    exact ⟨rfl, Or.inr rfl⟩

/-- No row of a file list that carries no COMPLETED row for the key can be
COMPLETED on the key. -/
theorem not_completed_of_is_file_completed_false (files : List ImportFileRow)
    (a fn : String) (hnc : is_file_completed files a fn = false) :
    ∀ y ∈ files, fileKeyMatches a fn y = true → y.status ≠ ImportStatus.completed := by
  intro y hy hkey hcon
  have : is_file_completed files a fn = true := by
    unfold is_file_completed
    rw [List.any_eq_true]
    exact ⟨y, hy, by rw [hkey, hcon]; simp⟩
  rw [hnc] at this
  exact Bool.false_ne_true this

/-- Failure path of the per-file body: the claimed row ends FAILED with the
exception's message recorded, the exception is re-raised, and no row for the
key is COMPLETED afterwards. -/
theorem processFile_fail_spec (files : List ImportFileRow) (db : DBState) (M : List MRow)
    (a fn : String) (records : List MeasurementRecord) (n : Nat) (e : String)
    (now batch_size : Nat) (hnc : is_file_completed files a fn = false) :
    ∃ y, (processFile files db M a fn records (some (n, e)) now batch_size).result
        = Except.error e
      ∧ (processFile files db M a fn records (some (n, e)) now batch_size).files.find?
          (fileKeyMatches a fn) = some y
      ∧ y.status = ImportStatus.failed
      ∧ y.error_message = some e
      ∧ ∀ z ∈ (processFile files db M a fn records (some (n, e)) now batch_size).files,
          fileKeyMatches a fn z = true → z.status ≠ ImportStatus.completed := by
  rcases hg : get_or_create_import_file files a fn now with ⟨i, files1⟩
  have hPF : processFile files db M a fn records (some (n, e)) now batch_size
      = ⟨updateAt (updateAt files1 i (fun f => { f with status := ImportStatus.in_progress })) i
          (fun f => { f with status := ImportStatus.failed, error_message := some e }),
        (runBatches i ⟨db, M, 0, 0⟩ ((chunkList batch_size records).take n)).db,
        (runBatches i ⟨db, M, 0, 0⟩ ((chunkList batch_size records).take n)).M,
        Except.error e, 0⟩ := by
    unfold processFile
    rw [if_neg (by rw [hnc]; exact Bool.false_ne_true), hg]
  have hspec := get_or_create_import_file_spec files a fn now i files1 hg
  have hfi : ∃ fi, files1[i]? = some fi ∧ fileKeyMatches a fn fi = true := by
    rcases hspec with ⟨rfl, ⟨fi, hfi, hkey⟩, -⟩ | ⟨rfl, rfl, -⟩
    · exact ⟨fi, hfi, hkey⟩
    · refine ⟨⟨a, fn, ImportStatus.pending, 0, 0, none, now, none⟩, ?_, by
        simp [fileKeyMatches]⟩
      rw [List.getElem?_concat_length]
  have hmin : ∀ j, j < i → ∀ y, files1[j]? = some y → fileKeyMatches a fn y = false := by
    rcases hspec with ⟨rfl, -, hmin⟩ | ⟨rfl, rfl, hall⟩
    · exact hmin
    · intro j hj y hy
      rw [List.getElem?_append_left hj] at hy
      refine hall y ?_
      obtain ⟨hw, hval⟩ := List.getElem?_eq_some_iff.mp hy
      rw [← hval]
      exact List.getElem_mem hw
  have hold : ∀ j y, ¬ j = i → files1[j]? = some y →
      fileKeyMatches a fn y = true → y.status ≠ ImportStatus.completed := by
    have hrows := not_completed_of_is_file_completed_false files a fn hnc
    rcases hspec with ⟨rfl, -, -⟩ | ⟨rfl, rfl, -⟩
    · intro j y _ hy
      refine hrows y ?_
      obtain ⟨hw, hval⟩ := List.getElem?_eq_some_iff.mp hy
      rw [← hval]
      exact List.getElem_mem hw
    · intro j y hji hy
      have hjlt : j < files.length := by
        obtain ⟨hw, -⟩ := List.getElem?_eq_some_iff.mp hy
        rw [List.length_append, List.length_singleton] at hw
        omega
      rw [List.getElem?_append_left hjlt] at hy
      refine hrows y ?_
      obtain ⟨hw, hval⟩ := List.getElem?_eq_some_iff.mp hy
      rw [← hval]
      exact List.getElem_mem hw
  obtain ⟨fi, hfi, hkey⟩ := hfi
  rw [hPF]
  refine ⟨{ fi with status := ImportStatus.failed, error_message := some e }, rfl, ?_, rfl,
    rfl, ?_⟩
  · refine find?_first_match _ _ i _ ?_ ?_ ?_
    · rw [updateAt_getElem?, if_pos rfl, updateAt_getElem?, if_pos rfl, hfi]
      rfl
    · exact hkey
    · intro j hj y hy
      rw [updateAt_getElem?, if_neg (by omega), updateAt_getElem?, if_neg (by omega)] at hy
      exact hmin j hj y hy
  · intro z hz hkeyz
    obtain ⟨j, hj⟩ := List.mem_iff_getElem?.mp hz
    by_cases hji : j = i
    · rw [hji, updateAt_getElem?, if_pos rfl, updateAt_getElem?, if_pos rfl, hfi] at hj
      obtain rfl := Option.some.inj hj
      intro hc
      exact absurd hc (by simp)
    · rw [updateAt_getElem?, if_neg hji, updateAt_getElem?, if_neg hji] at hj
      exact hold j z hji hj hkeyz

/-- Success path of the per-file body: the claimed row ends COMPLETED with
the accumulated counts and a completion time. -/
theorem processFile_ok_spec (files : List ImportFileRow) (db : DBState) (M : List MRow)
    (a fn : String) (records : List MeasurementRecord)
    (now batch_size : Nat) (hnc : is_file_completed files a fn = false) :
    ∃ y, (processFile files db M a fn records none now batch_size).files.find?
          (fileKeyMatches a fn) = some y
      ∧ y.status = ImportStatus.completed
      ∧ y.completed_at = some now := by
  rcases hg : get_or_create_import_file files a fn now with ⟨i, files1⟩
  have hPF : processFile files db M a fn records none now batch_size
      = ⟨updateAt (updateAt files1 i (fun f => { f with status := ImportStatus.in_progress })) i
          (fun f => { f with
            status := ImportStatus.completed
            records_imported := (runBatches i ⟨db, M, 0, 0⟩ (chunkList batch_size records)).imported
            records_skipped := (runBatches i ⟨db, M, 0, 0⟩ (chunkList batch_size records)).skipped
            completed_at := some now }),
        (runBatches i ⟨db, M, 0, 0⟩ (chunkList batch_size records)).db,
        (runBatches i ⟨db, M, 0, 0⟩ (chunkList batch_size records)).M,
        Except.ok ((runBatches i ⟨db, M, 0, 0⟩ (chunkList batch_size records)).imported,
          (runBatches i ⟨db, M, 0, 0⟩ (chunkList batch_size records)).skipped), 0⟩ := by
    unfold processFile
    rw [if_neg (by rw [hnc]; exact Bool.false_ne_true), hg]
  have hspec := get_or_create_import_file_spec files a fn now i files1 hg
  have hfi : ∃ fi, files1[i]? = some fi ∧ fileKeyMatches a fn fi = true := by
    rcases hspec with ⟨rfl, ⟨fi, hfi, hkey⟩, -⟩ | ⟨rfl, rfl, -⟩
    · exact ⟨fi, hfi, hkey⟩
    · refine ⟨⟨a, fn, ImportStatus.pending, 0, 0, none, now, none⟩, ?_, by
        simp [fileKeyMatches]⟩
      rw [List.getElem?_concat_length]
  have hmin : ∀ j, j < i → ∀ y, files1[j]? = some y → fileKeyMatches a fn y = false := by
    rcases hspec with ⟨rfl, -, hmin⟩ | ⟨rfl, rfl, hall⟩
    · exact hmin
    · intro j hj y hy
      rw [List.getElem?_append_left hj] at hy
      refine hall y ?_
      obtain ⟨hw, hval⟩ := List.getElem?_eq_some_iff.mp hy
      rw [← hval]
      exact List.getElem_mem hw
  obtain ⟨fi, hfi, hkey⟩ := hfi
  rw [hPF]
  refine ⟨{ fi with
      status := ImportStatus.completed
      records_imported := (runBatches i ⟨db, M, 0, 0⟩ (chunkList batch_size records)).imported
      records_skipped := (runBatches i ⟨db, M, 0, 0⟩ (chunkList batch_size records)).skipped
      completed_at := some now }, ?_, rfl, rfl⟩
  refine find?_first_match _ _ i _ ?_ ?_ ?_
  · rw [updateAt_getElem?, if_pos rfl, updateAt_getElem?, if_pos rfl, hfi]
    rfl
  · exact hkey
  · intro j hj y hy
    rw [updateAt_getElem?, if_neg (by omega), updateAt_getElem?, if_neg (by omega)] at hy
    exact hmin j hj y hy

/-- C4: when an exception with message `e` interrupts parsing or loading of
a not-yet-completed file, the file's row is set to FAILED with the (non-
empty) message recorded and the exception re-raised to the caller; a
subsequent `resetFailed` brings the row back to PENDING, and a clean rerun
then brings it to COMPLETED. -/
theorem failure_recovery_spec (files : List ImportFileRow) (db : DBState) (M : List MRow)
    (a fn : String) (records : List MeasurementRecord) (n : Nat) (e : String)
    (now now2 batch_size : Nat)
    (hnc : is_file_completed files a fn = false) (he : e ≠ "") :
    (processFile files db M a fn records (some (n, e)) now batch_size).result = Except.error e
    ∧ fileStatus (processFile files db M a fn records (some (n, e)) now batch_size).files a fn
        = some ImportStatus.failed
    ∧ fileError (processFile files db M a fn records (some (n, e)) now batch_size).files a fn
        = some (some e)
    ∧ (∃ msg, fileError (processFile files db M a fn records (some (n, e)) now
          batch_size).files a fn = some (some msg) ∧ msg ≠ "")
    ∧ fileStatus (resetFailed (processFile files db M a fn records (some (n, e)) now
          batch_size).files).1 a fn = some ImportStatus.pending
    ∧ fileStatus (processFile
          (resetFailed (processFile files db M a fn records (some (n, e)) now
            batch_size).files).1
          (processFile files db M a fn records (some (n, e)) now batch_size).db
          (processFile files db M a fn records (some (n, e)) now batch_size).M
          a fn records none now2 batch_size).files a fn
        = some ImportStatus.completed := by
  obtain ⟨y, hres, hfind, hstat, herr, hrows⟩ :=
    processFile_fail_spec files db M a fn records n e now batch_size hnc
  have hkeycomp : (fileKeyMatches a fn ∘ (fun f =>
      if resetFailedCond f then { f with status := ImportStatus.pending } else f))
        = fileKeyMatches a fn :=
    funext fun f => (reset_row_fields a fn f).1
  have hstatus : fileStatus (processFile files db M a fn records (some (n, e)) now
      batch_size).files a fn = some ImportStatus.failed := by
    unfold fileStatus
    rw [hfind]
    simp [hstat]
  have herror : fileError (processFile files db M a fn records (some (n, e)) now
      batch_size).files a fn = some (some e) := by
    unfold fileError
    rw [hfind]
    simp [herr]
  have hreset : fileStatus (resetFailed (processFile files db M a fn records (some (n, e))
      now batch_size).files).1 a fn = some ImportStatus.pending := by
    unfold fileStatus resetFailed
    rw [List.find?_map, hkeycomp, hfind]
    have hc : resetFailedCond y = true := by
      unfold resetFailedCond
      rw [hstat]
      simp
    simp [hc]
  have hnc2 : is_file_completed (resetFailed (processFile files db M a fn records
      (some (n, e)) now batch_size).files).1 a fn = false := by
    unfold is_file_completed resetFailed
    rw [List.any_map]
    rw [Bool.eq_false_iff]
    intro hany
    obtain ⟨x, hx, hpx⟩ := List.any_eq_true.mp hany
    simp only [Function.comp] at hpx
    rw [Bool.and_eq_true] at hpx
    obtain ⟨hkx, hsx⟩ := hpx
    rw [(reset_row_fields a fn x).1] at hkx
    have hxnc := hrows x hx hkx
    rcases (reset_row_fields a fn x).2 with hp | hp
    · rw [hp] at hsx
      exact absurd hsx (by simp)
    · rw [hp] at hsx
      rw [beq_iff_eq] at hsx
      exact hxnc hsx
  obtain ⟨y2, hfind2, hstat2, -⟩ :=
    processFile_ok_spec _ _ _ a fn records now2 batch_size hnc2
  refine ⟨hres, hstatus, herror, ⟨e, herror, he⟩, hreset, ?_⟩
  unfold fileStatus
  rw [hfind2]
  simp [hstat2]

/-- Witness for C4: a file whose first run raises "boom" before any batch
commits, then is reset and cleanly rerun. -/
theorem failure_recovery_spec_witness :
    (processFile [] ⟨[], []⟩ [] "a.zip" "x.xlsx"
        [⟨"S1", "PM10", "ug", "24g", 0, some 7, "f"⟩] (some (0, "boom")) 5 50000).result
      = Except.error "boom"
    ∧ fileStatus (processFile [] ⟨[], []⟩ [] "a.zip" "x.xlsx"
        [⟨"S1", "PM10", "ug", "24g", 0, some 7, "f"⟩] (some (0, "boom")) 5 50000).files
        "a.zip" "x.xlsx" = some ImportStatus.failed
    ∧ fileStatus (processFile
        (resetFailed (processFile [] ⟨[], []⟩ [] "a.zip" "x.xlsx"
          [⟨"S1", "PM10", "ug", "24g", 0, some 7, "f"⟩] (some (0, "boom")) 5 50000).files).1
        (processFile [] ⟨[], []⟩ [] "a.zip" "x.xlsx"
          [⟨"S1", "PM10", "ug", "24g", 0, some 7, "f"⟩] (some (0, "boom")) 5 50000).db
        (processFile [] ⟨[], []⟩ [] "a.zip" "x.xlsx"
          [⟨"S1", "PM10", "ug", "24g", 0, some 7, "f"⟩] (some (0, "boom")) 5 50000).M
        "a.zip" "x.xlsx" [⟨"S1", "PM10", "ug", "24g", 0, some 7, "f"⟩]
        none 6 50000).files "a.zip" "x.xlsx" = some ImportStatus.completed :=
  ⟨(failure_recovery_spec [] ⟨[], []⟩ [] "a.zip" "x.xlsx"
      [⟨"S1", "PM10", "ug", "24g", 0, some 7, "f"⟩] 0 "boom" 5 6 50000
      (by decide) (by decide)).1,
   (failure_recovery_spec [] ⟨[], []⟩ [] "a.zip" "x.xlsx"
      [⟨"S1", "PM10", "ug", "24g", 0, some 7, "f"⟩] 0 "boom" 5 6 50000
      (by decide) (by decide)).2.1,
   (failure_recovery_spec [] ⟨[], []⟩ [] "a.zip" "x.xlsx"
      [⟨"S1", "PM10", "ug", "24g", 0, some 7, "f"⟩] 0 "boom" 5 6 50000
      (by decide) (by decide)).2.2.2.2.2⟩

end Powietrze
